import Mathlib

/-
Verification of `src/organize_photos.py` (photo-utils).

The Python source is shallowly embedded here:
* strings are `List Char` (`Str`), mirroring Python `str` operations
  (`split(': ')`, `strip()`, `datetime.strptime`) character by character;
* the exiftool subprocess is an oracle `Str → ProcResult` giving, per path,
  the completed process (return code and captured stdout);
* the filesystem seen by `organize_dng_files` is the list of immediate
  children of `source_dir` (`List Entry`), each child carrying its name,
  its kind (regular file / directory / other) and, for directories, the
  names of the files inside;
* a Python exception escaping the per-file loop is modelled by the `err`
  field of the run state: once set, the remaining iterations do not run.
-/

abbrev Str := List Char

/-- Whitespace as stripped by Python `str.strip()` (the characters that can
actually occur in exiftool output). -/
def wsChar (c : Char) : Bool :=
  c = ' ' || c = '\n' || c = '\t' || c = '\r'

/-- Model of Python `str.strip()`: drop whitespace from both ends. -/
def pyStrip (s : Str) : Str :=
  ((s.dropWhile wsChar).reverse.dropWhile wsChar).reverse

/-- Model of Python `str.split(': ')`: split on every non-overlapping,
leftmost-first occurrence of the two-character separator `': '`. -/
def splitColonSpace : Str → List Str
  | [] => [[]]
  | [c] => [[c]]
  | c :: c2 :: rest =>
    if c = ':' ∧ c2 = ' ' then [] :: splitColonSpace rest
    else
      match splitColonSpace (c2 :: rest) with
      | [] => [[c]]
      | p :: ps => (c :: p) :: ps

/-- Numeric value of a digit run (the regex groups of `_strptime` are plain
decimal digit strings). -/
def digitsVal (ds : Str) : Nat :=
  ds.foldl (fun a c => 10 * a + (c.toNat - 48)) 0

/-- Read a maximal run of decimal digits whose length lies in `[lo, hi]`,
returning its value and the rest of the input.  This is how the
`_strptime` regex fragments (`\d\d\d\d` for `%Y`, the 1-2 digit
alternations for `%m`, `%d`, `%H`, `%M`, `%S`) behave when the field is
followed by a non-digit separator. -/
def readNum (lo hi : Nat) (s : Str) : Option (Nat × Str) :=
  let ds := s.takeWhile Char.isDigit
  if lo ≤ ds.length ∧ ds.length ≤ hi then
    some (digitsVal ds, s.dropWhile Char.isDigit)
  else none

/-- Literal `':'` in the strptime format. -/
def expectColon (s : Str) : Option Str :=
  match s with
  | ':' :: r => some r
  | _ => none

/-- A space in the strptime format matches a nonempty run of whitespace. -/
def expectWs (s : Str) : Option Str :=
  match s with
  | c :: r => if wsChar c then some (r.dropWhile wsChar) else none
  | [] => none

/-- `(year, month, day, hour, minute, second)` as produced by
`datetime.strptime`; only the date portion is used downstream. -/
structure DateTime where
  year : Nat
  month : Nat
  day : Nat
  hour : Nat
  minute : Nat
  second : Nat
deriving DecidableEq, Repr

/-- Gregorian leap-year rule used by `datetime`. -/
def isLeap (y : Nat) : Bool :=
  (y % 4 = 0 && y % 100 ≠ 0) || y % 400 = 0

/-- Days in a month, as validated by the `datetime` constructor. -/
def daysInMonth (y m : Nat) : Nat :=
  if m = 2 then (if isLeap y then 29 else 28)
  else if m = 4 ∨ m = 6 ∨ m = 9 ∨ m = 11 then 30
  else 31

/-- The range checks the `datetime` constructor performs (`MINYEAR = 1`,
`MAXYEAR = 9999`); out-of-range fields raise `ValueError`, i.e. `none`. -/
def mkDT (y mo d h mi se : Nat) : Option DateTime :=
  if 1 ≤ y ∧ y ≤ 9999 ∧ 1 ≤ mo ∧ mo ≤ 12 ∧ 1 ≤ d ∧ d ≤ daysInMonth y mo
      ∧ h ≤ 23 ∧ mi ≤ 59 ∧ se ≤ 59 then
    some ⟨y, mo, d, h, mi, se⟩
  else none

/-- Model of `datetime.strptime(s, '%Y:%m:%d %H:%M:%S')`: parse the six
fields with their literal separators, require the whole input to be
consumed, and apply the constructor's range validation. -/
def strptimeYmdHMS (s : Str) : Option DateTime :=
  match readNum 4 4 s with
  | none => none
  | some (y, r1) =>
  match expectColon r1 with
  | none => none
  | some r2 =>
  match readNum 1 2 r2 with
  | none => none
  | some (mo, r3) =>
  match expectColon r3 with
  | none => none
  | some r4 =>
  match readNum 1 2 r4 with
  | none => none
  | some (d, r5) =>
  match expectWs r5 with
  | none => none
  | some r6 =>
  match readNum 1 2 r6 with
  | none => none
  | some (h, r7) =>
  match expectColon r7 with
  | none => none
  | some r8 =>
  match readNum 1 2 r8 with
  | none => none
  | some (mi, r9) =>
  match expectColon r9 with
  | none => none
  | some r10 =>
  match readNum 1 2 r10 with
  | none => none
  | some (se, r11) =>
  if r11 = [] then mkDT y mo d h mi se else none

/-- A completed `subprocess.run` for one file: return code and captured
text stdout. -/
structure ProcResult where
  returncode : Int
  stdout : Str
deriving DecidableEq

/-- The body of the `try` block of `get_date_taken`, with the two spots
that can raise (`[1]` raising `IndexError`, `strptime` raising
`ValueError`) returning `Except.error`. -/
def get_date_taken_core (r : ProcResult) : Except Unit (Option DateTime) :=
  if r.returncode = 0 ∧ r.stdout ≠ [] then
    match (splitColonSpace r.stdout).get? 1 with
    | none => Except.error ()
    | some part =>
      match strptimeYmdHMS (pyStrip part) with
      | none => Except.error ()
      | some dt => Except.ok (some dt)
  else Except.ok none

/-- `get_date_taken(image_path)`: run exiftool (the oracle `exif`), parse
its output, and convert any exception into `None` via the `except` clause,
which also emits a diagnostic line through `debug_print` when debugging is
on.  Returns the value together with the lines printed. -/
def get_date_taken (exif : Str → ProcResult) (debug : Bool) (path : Str) :
    Option DateTime × List Str :=
  match get_date_taken_core (exif path) with
  | Except.ok v => (v, [])
  | Except.error _ =>
    (none, if debug then [("Error reading EXIF data from ").data ++ path] else [])

-- sanity checks on concrete exiftool output
example :
    (get_date_taken
      (fun _ => ⟨0, ("Date/Time Original              : 2023:05:14 10:22:00\n").data⟩)
      false ("IMG_1.DNG").data).fst = some ⟨2023, 5, 14, 10, 22, 0⟩ := by decide

example :
    (get_date_taken (fun _ => ⟨1, ("anything").data⟩) false ("x").data).fst
      = none := by decide

example :
    (get_date_taken (fun _ => ⟨0, []⟩) false ("x").data).fst = none := by decide

example :
    (get_date_taken (fun _ => ⟨0, ("no separator here").data⟩) false ("x").data).fst
      = none := by decide

example :
    (get_date_taken (fun _ => ⟨0, ("Tag: not a date").data⟩) false ("x").data).fst
      = none := by decide

/-- Kind of an immediate child of `source_dir`, as `Path.is_file` sees it:
a regular file, a directory, or anything else (treated like "not a file"). -/
inductive EKind where
  | file
  | dir
  | other
deriving DecidableEq, Repr

/-- An immediate child of `source_dir`.  For a directory, `files` lists the
names of the files it contains (only directories use this field). -/
structure Entry where
  name : Str
  kind : EKind
  files : List Str
deriving DecidableEq, Repr

/-- Model of `source_path.glob("*.DNG")` applied to one name.  `pathlib`
matches a child by a full regex match of the fnmatch translation of the
pattern, so a name matches exactly when it ends in `.DNG`
(case-sensitive); unlike the `glob` module, `Path.glob` does not
special-case hidden (dot-initial) names, so `.x.DNG` is a candidate. -/
def globDNG (n : Str) : Bool :=
  n.reverse.take 4 == ['G', 'N', 'D', '.']

/-- Look an immediate child up by name (`file_path.is_file()`,
`target_dir` existence checks). -/
def lookupE (fs : List Entry) (n : Str) : Option Entry :=
  fs.find? (fun e => e.name == n)

/-- Model of `target_dir.mkdir(exist_ok=True)`: no-op if a directory with
that name exists, `FileExistsError` if a non-directory occupies the name,
otherwise the directory is created. -/
def mkdirOp (fs : List Entry) (ds : Str) : Except Str (List Entry) :=
  match lookupE fs ds with
  | some d =>
    if d.kind == EKind.dir then Except.ok fs
    else Except.error ("FileExistsError").data
  | none => Except.ok (fs ++ [⟨ds, EKind.dir, []⟩])

/-- Model of `shutil.move(str(file_path), str(target_path))`: the root
entry named `c` disappears and `c` joins the files of the directory named
`ds`; an existing destination file of the same name is overwritten. -/
def moveInto (fs : List Entry) (c ds : Str) : List Entry :=
  (fs.filter (fun e => !(e.name == c))).map
    (fun e =>
      if e.name == ds then
        { e with files := if e.files.contains c then e.files else e.files ++ [c] }
      else e)

/-- `strftime("%Y-%m-%d")` digit helpers (fields of a valid `datetime` are
at most two digits except the four-digit year). -/
def pad2 (n : Nat) : Str :=
  if n < 10 then ['0', Nat.digitChar n]
  else if n < 100 then [Nat.digitChar (n / 10), Nat.digitChar (n % 10)]
  else Nat.toDigits 10 n

def pad4 (n : Nat) : Str :=
  if n < 10 then ['0', '0', '0', Nat.digitChar n]
  else if n < 100 then ['0', '0', Nat.digitChar (n / 10), Nat.digitChar (n % 10)]
  else if n < 1000 then
    ['0', Nat.digitChar (n / 100), Nat.digitChar (n / 10 % 10), Nat.digitChar (n % 10)]
  else if n < 10000 then
    [Nat.digitChar (n / 1000), Nat.digitChar (n / 100 % 10),
     Nat.digitChar (n / 10 % 10), Nat.digitChar (n % 10)]
  else Nat.toDigits 10 n

/-- `date_taken.strftime("%Y-%m-%d")`: the name of the target directory. -/
def dateFolder (dt : DateTime) : Str :=
  pad4 dt.year ++ '-' :: pad2 dt.month ++ '-' :: pad2 dt.day

/-- State of one `organize_dng_files` run: the current children of
`source_dir`, the pending exception (`some` once an uncaught error has
escaped the loop), and logs of the moves, `mkdir` calls, metadata queries
and debug output performed so far. -/
structure RunState where
  fs : List Entry
  err : Option Str
  moves : List (Str × Str)
  mkdirs : List Str
  queried : List Str
  trace : List Str
deriving Repr

/-- `debug_print`: one line of output when debugging is on, nothing
otherwise. -/
def dprint (debug : Bool) (msg : Str) : List Str :=
  if debug then [msg] else []

/-- One iteration of the `for file_path in source_path.glob("*.DNG")` loop
for the candidate name `c`.  A pending exception skips the iteration (the
loop is no longer running); otherwise: `is_file` check, metadata query,
skip on `None`, `mkdir(exist_ok=True)`, move.  `mkdir` and the move are
*not* wrapped in any `try`, so their failure sets `err`. -/
def procFile (exif : Str → ProcResult) (debug : Bool) (st : RunState) (c : Str) :
    RunState :=
  if st.err.isSome then st
  else
    match lookupE st.fs c with
    | none => st
    | some e =>
      if e.kind != EKind.file then st
      else
        let m := get_date_taken exif debug c
        let st1 : RunState :=
          { st with
            queried := st.queried ++ [c]
            trace := st.trace ++ dprint debug (("Processing file: ").data ++ c) ++ m.2 }
        match m.1 with
        | none =>
          { st1 with
            trace := st1.trace
              ++ dprint debug (("Could not get creation date, skipping ").data ++ c) }
        | some dt =>
          let ds := dateFolder dt
          match mkdirOp st1.fs ds with
          | Except.error msg => { st1 with err := some msg }
          | Except.ok fs1 =>
            { st1 with
              fs := moveInto fs1 c ds
              moves := st1.moves ++ [(c, ds)]
              mkdirs := st1.mkdirs ++ [ds]
              trace := st1.trace ++ dprint debug (("Moving ").data ++ c) }

/-- The names yielded by the root-level `glob("*.DNG")` scan, in directory
order. -/
def candidates (fs0 : List Entry) : List Str :=
  (fs0.filter (fun e => globDNG e.name)).map (fun e => e.name)

/-- `organize_dng_files(source_dir, debug)`: scan the root of `source_dir`
for `*.DNG` entries and process each in turn. -/
def organize_dng_files (exif : Str → ProcResult) (fs0 : List Entry) (debug : Bool) :
    RunState :=
  (candidates fs0).foldl (procFile exif debug)
    ⟨fs0, none, [], [], [], dprint debug ("Processing directory").data⟩

/-- The value `get_date_taken` produces for a name (the organizer only
uses this component). -/
def metaOf (exif : Str → ProcResult) (debug : Bool) (n : Str) : Option DateTime :=
  (get_date_taken exif debug n).fst

/-- Startup environment of the `__main__` block. -/
structure Env where
  exiftoolPresent : Bool
  sourceDirExists : Bool

/-- `check_exiftool()`: `subprocess.run(['exiftool', '-ver'])` raises
`FileNotFoundError` exactly when the tool is absent; in that case the
install hints are printed and `False` is returned. -/
def check_exiftool (present : Bool) : Bool × List Str :=
  if present then (true, [])
  else
    (false,
      [("Error: exiftool is not installed. Please install it first:").data,
       ("  macOS: brew install exiftool").data,
       ("  Linux: sudo apt-get install exiftool").data,
       ("  Windows: Download from https://exiftool.org").data])

/-- Outcome of the `__main__` block: exit status, the organizer run when
one was started (`none` means `organize_dng_files` was never called), and
everything printed before/at startup. -/
structure MainResult where
  exitCode : Nat
  organized : Option RunState
  messages : List Str

/-- The `__main__` block: check for exiftool (exit 1 on failure), check
that `source_dir` exists (exit 1 with a message otherwise), then organize
and exit 0. -/
def main_run (env : Env) (exif : Str → ProcResult) (fs0 : List Entry)
    (debug : Bool) : MainResult :=
  let chk := check_exiftool env.exiftoolPresent
  if !chk.fst then ⟨1, none, chk.snd⟩
  else if !env.sourceDirExists then
    ⟨1, none, [("Error: Directory does not exist.").data]⟩
  else ⟨0, some (organize_dng_files exif fs0 debug), []⟩

-- sanity: end-to-end scenario 1 of the spec
example :
    (organize_dng_files
      (fun _ => ⟨0, ("Date/Time Original: 2023:05:14 10:22:00\n").data⟩)
      [⟨("IMG_1.DNG").data, EKind.file, []⟩] false).moves
    = [(("IMG_1.DNG").data, ("2023-05-14").data)] := by decide

example :
    lookupE (organize_dng_files
      (fun _ => ⟨0, ("Date/Time Original: 2023:05:14 10:22:00\n").data⟩)
      [⟨("IMG_1.DNG").data, EKind.file, []⟩] false).fs (("IMG_1.DNG").data)
    = none := by decide

example :
    lookupE (organize_dng_files
      (fun _ => ⟨0, ("Date/Time Original: 2023:05:14 10:22:00\n").data⟩)
      [⟨("IMG_1.DNG").data, EKind.file, []⟩] false).fs (("2023-05-14").data)
    = some ⟨("2023-05-14").data, EKind.dir, [("IMG_1.DNG").data]⟩ := by decide

/-! ### Basic facts about the filesystem model -/

/-- Real directories give their immediate children distinct names. -/
def NodupNames (fs : List Entry) : Prop :=
  (fs.map Entry.name).Nodup

theorem lookupE_some (fs : List Entry) (n : Str) (e : Entry)
    (h : lookupE fs n = some e) : e ∈ fs ∧ e.name = n := by
  unfold lookupE at h
  have hp := List.find?_some h
  exact ⟨List.mem_of_find?_eq_some h, by simpa using hp⟩

theorem lookupE_none (fs : List Entry) (n : Str) :
    lookupE fs n = none ↔ ∀ e ∈ fs, e.name ≠ n := by
  unfold lookupE
  rw [List.find?_eq_none]
  constructor
  · intro h e he
    simpa using h e he
  · intro h e he
    simpa using h e he

theorem uniqueEntry (fs : List Entry) (hnd : NodupNames fs) (a b : Entry)
    (ha : a ∈ fs) (hb : b ∈ fs) (hab : a.name = b.name) : a = b :=
  List.inj_on_of_nodup_map hnd ha hb hab

theorem lookupE_of_mem (fs : List Entry) (n : Str) (e : Entry)
    (hnd : NodupNames fs) (he : e ∈ fs) (hn : e.name = n) :
    lookupE fs n = some e := by
  cases h : lookupE fs n with
  | none =>
    exact absurd hn ((lookupE_none fs n).mp h e he)
  | some e' =>
    obtain ⟨he', hn'⟩ := lookupE_some fs n e' h
    rw [uniqueEntry fs hnd e e' he he' (hn.trans hn'.symm)]

/-! ### Range facts about parsed timestamps -/

theorem daysInMonth_le (y m : Nat) : daysInMonth y m ≤ 31 := by
  unfold daysInMonth
  split
  · split <;> omega
  · split <;> omega

theorem mkDT_some (y mo d h mi se : Nat) (dt : DateTime)
    (hmk : mkDT y mo d h mi se = some dt) :
    1 ≤ dt.year ∧ dt.year ≤ 9999 ∧ 1 ≤ dt.month ∧ dt.month ≤ 12 ∧
      1 ≤ dt.day ∧ dt.day ≤ 31 := by
  unfold mkDT at hmk
  split at hmk
  case isTrue hr =>
    cases hmk
    exact ⟨hr.1, hr.2.1, hr.2.2.1, hr.2.2.2.1, hr.2.2.2.2.1,
      le_trans hr.2.2.2.2.2.1 (daysInMonth_le y mo)⟩
  case isFalse => exact absurd hmk (by simp)

theorem strptime_ranges (s : Str) (dt : DateTime)
    (h : strptimeYmdHMS s = some dt) :
    1 ≤ dt.year ∧ dt.year ≤ 9999 ∧ 1 ≤ dt.month ∧ dt.month ≤ 12 ∧
      1 ≤ dt.day ∧ dt.day ≤ 31 := by
  unfold strptimeYmdHMS at h
  repeat' split at h
  all_goals first
    | exact mkDT_some _ _ _ _ _ _ _ h
    | simp at h

theorem get_date_taken_some (exif : Str → ProcResult) (debug : Bool)
    (p : Str) (dt : DateTime)
    (h : (get_date_taken exif debug p).fst = some dt) :
    ∃ part, strptimeYmdHMS part = some dt := by
  unfold get_date_taken at h
  cases hc : get_date_taken_core (exif p) with
  | error u => rw [hc] at h; simp at h
  | ok v =>
    rw [hc] at h
    simp only [] at h
    subst h
    unfold get_date_taken_core at hc
    split at hc
    · split at hc
      · simp at hc
      · rename_i part hg
        split at hc
        · simp at hc
        · rename_i dt' hs
          simp only [Except.ok.injEq, Option.some.injEq] at hc
          exact ⟨pyStrip part, by rw [hs, hc]⟩
    · simp at hc

theorem metaOf_day_le (exif : Str → ProcResult) (debug : Bool) (n : Str)
    (dt : DateTime) (h : metaOf exif debug n = some dt) : dt.day ≤ 31 := by
  obtain ⟨part, hp⟩ := get_date_taken_some exif debug n dt h
  exact (strptime_ranges part dt hp).2.2.2.2.2

/-! ### A date-named folder never matches the `*.DNG` scan -/

theorem digitChar_ne_G : ∀ k, k < 10 → Nat.digitChar k ≠ 'G' := by decide

theorem dateFolder_decomp (dt : DateTime) :
    ∃ pre, dateFolder dt = pre ++ pad2 dt.day := by
  refine ⟨pad4 dt.year ++ '-' :: pad2 dt.month ++ ['-'], ?_⟩
  unfold dateFolder
  simp

theorem dateFolder_reverse_take (dt : DateTime) (h : dt.day ≤ 31) :
    ∃ k rest, k < 10 ∧ (dateFolder dt).reverse.take 4 = Nat.digitChar k :: rest := by
  obtain ⟨pre, hpre⟩ := dateFolder_decomp dt
  by_cases h1 : dt.day < 10
  · refine ⟨dt.day, '0' :: pre.reverse.take 2, h1, ?_⟩
    rw [hpre]
    unfold pad2
    rw [if_pos h1, List.reverse_append]
    simp [List.take]
  · have h2 : dt.day < 100 := by omega
    refine ⟨dt.day % 10, Nat.digitChar (dt.day / 10) :: pre.reverse.take 2,
      Nat.mod_lt _ (by norm_num), ?_⟩
    rw [hpre]
    unfold pad2
    rw [if_neg h1, if_pos h2, List.reverse_append]
    simp [List.take]

theorem globDNG_dateFolder (dt : DateTime) (h : dt.day ≤ 31) :
    globDNG (dateFolder dt) = false := by
  obtain ⟨k, rest, hk, htake⟩ := dateFolder_reverse_take dt h
  have hne : (dateFolder dt).reverse.take 4 ≠ ['G', 'N', 'D', '.'] := by
    rw [htake]
    intro hEq
    injection hEq with h1 _
    exact digitChar_ne_G k hk h1
  unfold globDNG
  exact beq_eq_false_iff_ne.mpr hne

theorem dateFolder_ne_glob (dt : DateTime) (c : Str) (hday : dt.day ≤ 31)
    (hc : globDNG c = true) : dateFolder dt ≠ c := by
  intro hEq
  have hg := globDNG_dateFolder dt hday
  rw [hEq, hc] at hg
  exact Bool.noConfusion hg

/-! ### Candidate enumeration -/

theorem mem_candidates (fs0 : List Entry) (c : Str) :
    c ∈ candidates fs0 ↔ ∃ e ∈ fs0, e.name = c ∧ globDNG e.name = true := by
  unfold candidates
  simp only [List.mem_map, List.mem_filter]
  constructor
  · rintro ⟨e, ⟨he, hg⟩, hn⟩
    exact ⟨e, he, hn, hg⟩
  · rintro ⟨e, he, hn, hg⟩
    exact ⟨e, ⟨he, hg⟩, hn⟩

theorem candidates_glob (fs0 : List Entry) (c : Str) (h : c ∈ candidates fs0) :
    globDNG c = true := by
  obtain ⟨e, _, hn, hg⟩ := (mem_candidates fs0 c).mp h
  rw [← hn]
  exact hg

theorem candidates_nodup (fs0 : List Entry) (h : NodupNames fs0) :
    (candidates fs0).Nodup := by
  unfold candidates
  unfold NodupNames at h
  exact (((List.filter_sublist fs0).map Entry.name)).nodup h

/-! ### Effect of the move and mkdir primitives -/

theorem moveInto_names (fs : List Entry) (c ds : Str) :
    (moveInto fs c ds).map Entry.name
      = (fs.filter (fun e => !(e.name == c))).map Entry.name := by
  unfold moveInto
  rw [List.map_map]
  apply List.map_congr_left
  intro e _
  simp only [Function.comp]
  split <;> rfl

theorem nodupNames_moveInto (fs : List Entry) (c ds : Str) (h : NodupNames fs) :
    NodupNames (moveInto fs c ds) := by
  unfold NodupNames at *
  rw [moveInto_names]
  exact ((List.filter_sublist fs).map Entry.name).nodup h

theorem mem_moveInto (fs : List Entry) (c ds : Str) (x : Entry)
    (hx : x ∈ moveInto fs c ds) :
    ∃ y ∈ fs, y.name = x.name ∧ y.kind = x.kind ∧ y.name ≠ c ∧
      (x = y ∨ x.name = ds) := by
  unfold moveInto at hx
  rw [List.mem_map] at hx
  obtain ⟨z, hz, hfz⟩ := hx
  rw [List.mem_filter] at hz
  obtain ⟨hzfs, hzc⟩ := hz
  have hzc' : z.name ≠ c := by simpa using hzc
  refine ⟨z, hzfs, ?_⟩
  split at hfz
  case isTrue hds =>
    subst hfz
    exact ⟨rfl, rfl, hzc', Or.inr (beq_iff_eq.mp hds)⟩
  case isFalse =>
    subst hfz
    exact ⟨rfl, rfl, hzc', Or.inl rfl⟩

theorem mem_moveInto_of_ne (fs : List Entry) (c ds : Str) (x : Entry)
    (hx : x ∈ fs) (hc : x.name ≠ c) (hds : x.name ≠ ds) :
    x ∈ moveInto fs c ds := by
  unfold moveInto
  rw [List.mem_map]
  refine ⟨x, ?_, ?_⟩
  · rw [List.mem_filter]
    exact ⟨hx, by simpa using hc⟩
  · rw [if_neg (by simpa using hds)]

theorem moveInto_dir_preserved (fs : List Entry) (c ds : Str) (d : Entry)
    (hd : d ∈ fs) (hc : d.name ≠ c) :
    ∃ d' ∈ moveInto fs c ds, d'.name = d.name ∧ d'.kind = d.kind ∧
      ∀ m ∈ d.files, m ∈ d'.files := by
  unfold moveInto
  by_cases hds : d.name = ds
  · refine ⟨{ d with files := if d.files.contains c then d.files else d.files ++ [c] },
      ?_, rfl, rfl, ?_⟩
    · rw [List.mem_map]
      refine ⟨d, ?_, by rw [if_pos (by simpa using hds)]⟩
      rw [List.mem_filter]
      exact ⟨hd, by simpa using hc⟩
    · intro m hm
      simp only []
      split <;> simp [hm]
  · refine ⟨d, ?_, rfl, rfl, fun m hm => hm⟩
    rw [List.mem_map]
    refine ⟨d, ?_, by rw [if_neg (by simpa using hds)]⟩
    rw [List.mem_filter]
    exact ⟨hd, by simpa using hc⟩

theorem moveInto_target (fs : List Entry) (c ds : Str) (d : Entry)
    (hd : d ∈ fs) (hds : d.name = ds) (hc : d.name ≠ c) :
    ∃ d' ∈ moveInto fs c ds, d'.name = ds ∧ d'.kind = d.kind ∧ c ∈ d'.files := by
  unfold moveInto
  refine ⟨{ d with files := if d.files.contains c then d.files else d.files ++ [c] },
    ?_, hds, rfl, ?_⟩
  · rw [List.mem_map]
    refine ⟨d, ?_, by rw [if_pos (by simpa using hds)]⟩
    rw [List.mem_filter]
    exact ⟨hd, by simpa using hc⟩
  · simp only []
    split
    case isTrue hct => simpa using hct
    case isFalse => simp

theorem mkdirOp_ok (fs : List Entry) (ds : Str) (fs1 : List Entry)
    (h : mkdirOp fs ds = Except.ok fs1) :
    (∃ d, lookupE fs ds = some d ∧ d.kind = EKind.dir ∧ fs1 = fs)
    ∨ (lookupE fs ds = none ∧ fs1 = fs ++ [⟨ds, EKind.dir, []⟩]) := by
  unfold mkdirOp at h
  split at h
  case h_1 d hd =>
    split at h
    case isTrue hk =>
      simp only [Except.ok.injEq] at h
      exact Or.inl ⟨d, hd, beq_iff_eq.mp hk, h.symm⟩
    case isFalse => simp at h
  case h_2 hd =>
    simp only [Except.ok.injEq] at h
    exact Or.inr ⟨hd, h.symm⟩

theorem mkdirOp_error_inv (fs : List Entry) (ds : Str) (m : Str)
    (h : mkdirOp fs ds = Except.error m) :
    ∃ d, lookupE fs ds = some d ∧ d.kind ≠ EKind.dir := by
  unfold mkdirOp at h
  split at h
  case h_1 d hd =>
    split at h
    case isTrue => simp at h
    case isFalse hk => exact ⟨d, hd, by simpa using hk⟩
  case h_2 => simp at h

theorem mkdirOp_sub (fs : List Entry) (ds : Str) (fs1 : List Entry)
    (h : mkdirOp fs ds = Except.ok fs1) : ∀ x ∈ fs, x ∈ fs1 := by
  rcases mkdirOp_ok fs ds fs1 h with ⟨d, _, _, rfl⟩ | ⟨_, rfl⟩
  · exact fun x hx => hx
  · exact fun x hx => List.mem_append_left _ hx

theorem mkdirOp_mem_elim (fs : List Entry) (ds : Str) (fs1 : List Entry)
    (h : mkdirOp fs ds = Except.ok fs1) :
    ∀ x ∈ fs1, x ∈ fs ∨ x = ⟨ds, EKind.dir, []⟩ := by
  rcases mkdirOp_ok fs ds fs1 h with ⟨d, _, _, rfl⟩ | ⟨_, rfl⟩
  · exact fun x hx => Or.inl hx
  · intro x hx
    rcases List.mem_append.mp hx with hx | hx
    · exact Or.inl hx
    · exact Or.inr (List.mem_singleton.mp hx)

theorem mkdirOp_nodup (fs : List Entry) (ds : Str) (fs1 : List Entry)
    (hnd : NodupNames fs) (h : mkdirOp fs ds = Except.ok fs1) :
    NodupNames fs1 := by
  rcases mkdirOp_ok fs ds fs1 h with ⟨d, _, _, rfl⟩ | ⟨hnone, rfl⟩
  · exact hnd
  · unfold NodupNames at *
    rw [List.map_append]
    rw [List.nodup_append]
    refine ⟨hnd, List.nodup_singleton _, ?_⟩
    intro n hn hn1
    simp only [List.map_cons, List.map_nil, List.mem_singleton] at hn1
    rw [List.mem_map] at hn
    obtain ⟨x, hx, hxn⟩ := hn
    exact (lookupE_none fs ds).mp hnone x hx (hxn.trans hn1)

/-! ### Case analysis of one loop iteration -/

theorem procFile_cases (exif : Str → ProcResult) (dbg : Bool) (st : RunState)
    (c : Str) :
    procFile exif dbg st c = st
    ∨ (st.err = none ∧ ∃ e, lookupE st.fs c = some e ∧ e.kind = EKind.file ∧
        metaOf exif dbg c = none ∧
        (procFile exif dbg st c).fs = st.fs ∧
        (procFile exif dbg st c).err = none ∧
        (procFile exif dbg st c).moves = st.moves ∧
        (procFile exif dbg st c).mkdirs = st.mkdirs ∧
        (procFile exif dbg st c).queried = st.queried ++ [c])
    ∨ (st.err = none ∧ ∃ e dt msg, lookupE st.fs c = some e ∧ e.kind = EKind.file ∧
        metaOf exif dbg c = some dt ∧
        mkdirOp st.fs (dateFolder dt) = Except.error msg ∧
        (procFile exif dbg st c).fs = st.fs ∧
        (procFile exif dbg st c).err = some msg ∧
        (procFile exif dbg st c).moves = st.moves ∧
        (procFile exif dbg st c).mkdirs = st.mkdirs ∧
        (procFile exif dbg st c).queried = st.queried ++ [c])
    ∨ (st.err = none ∧ ∃ e dt fs1, lookupE st.fs c = some e ∧ e.kind = EKind.file ∧
        metaOf exif dbg c = some dt ∧
        mkdirOp st.fs (dateFolder dt) = Except.ok fs1 ∧
        (procFile exif dbg st c).fs = moveInto fs1 c (dateFolder dt) ∧
        (procFile exif dbg st c).err = none ∧
        (procFile exif dbg st c).moves = st.moves ++ [(c, dateFolder dt)] ∧
        (procFile exif dbg st c).mkdirs = st.mkdirs ++ [dateFolder dt] ∧
        (procFile exif dbg st c).queried = st.queried ++ [c]) := by
  cases herr : st.err with
  | some m => left; simp [procFile, herr]
  | none =>
    cases hl : lookupE st.fs c with
    | none => left; simp [procFile, herr, hl]
    | some e =>
      by_cases hk : e.kind = EKind.file
      · cases hm : metaOf exif dbg c with
        | none =>
          have hm' : (get_date_taken exif dbg c).1 = none := hm
          right; left
          refine ⟨rfl, e, rfl, hk, rfl, ?_, ?_, ?_, ?_, ?_⟩ <;>
            simp [procFile, herr, hl, hk, hm']
        | some dt =>
          have hm' : (get_date_taken exif dbg c).1 = some dt := hm
          cases hmk : mkdirOp st.fs (dateFolder dt) with
          | error msg =>
            right; right; left
            refine ⟨rfl, e, dt, msg, rfl, hk, rfl, hmk, ?_, ?_, ?_, ?_, ?_⟩ <;>
              simp [procFile, herr, hl, hk, hm', hmk]
          | ok fs1 =>
            right; right; right
            refine ⟨rfl, e, dt, fs1, rfl, hk, rfl, hmk, ?_, ?_, ?_, ?_, ?_⟩ <;>
              simp [procFile, herr, hl, hk, hm', hmk]
      · left
        simp [procFile, herr, hl, bne_iff_ne, hk]

/-! ### Direct computation of acting and skipping iterations -/

theorem procFile_skip (exif : Str → ProcResult) (dbg : Bool) (st : RunState)
    (c : Str) (e : Entry) (herr : st.err = none) (hl : lookupE st.fs c = some e)
    (hk : e.kind = EKind.file) (hm : metaOf exif dbg c = none) :
    (procFile exif dbg st c).fs = st.fs ∧
    (procFile exif dbg st c).err = none ∧
    (procFile exif dbg st c).moves = st.moves ∧
    (procFile exif dbg st c).mkdirs = st.mkdirs ∧
    (procFile exif dbg st c).queried = st.queried ++ [c] := by
  have hm' : (get_date_taken exif dbg c).1 = none := hm
  refine ⟨?_, ?_, ?_, ?_, ?_⟩ <;> simp [procFile, herr, hl, hk, hm']

theorem procFile_acts (exif : Str → ProcResult) (dbg : Bool) (st : RunState)
    (c : Str) (e : Entry) (dt : DateTime) (herr : st.err = none)
    (hl : lookupE st.fs c = some e) (hk : e.kind = EKind.file)
    (hm : metaOf exif dbg c = some dt) :
    (∃ msg, mkdirOp st.fs (dateFolder dt) = Except.error msg ∧
      (procFile exif dbg st c).err = some msg)
    ∨ (∃ fs1, mkdirOp st.fs (dateFolder dt) = Except.ok fs1 ∧
      (procFile exif dbg st c).fs = moveInto fs1 c (dateFolder dt) ∧
      (procFile exif dbg st c).err = none ∧
      (procFile exif dbg st c).moves = st.moves ++ [(c, dateFolder dt)] ∧
      (procFile exif dbg st c).mkdirs = st.mkdirs ++ [dateFolder dt] ∧
      (procFile exif dbg st c).queried = st.queried ++ [c]) := by
  have hm' : (get_date_taken exif dbg c).1 = some dt := hm
  cases hmk : mkdirOp st.fs (dateFolder dt) with
  | error msg =>
    left
    refine ⟨msg, rfl, ?_⟩
    simp [procFile, herr, hl, hk, hm', hmk]
  | ok fs1 =>
    right
    refine ⟨fs1, rfl, ?_, ?_, ?_, ?_, ?_⟩ <;> simp [procFile, herr, hl, hk, hm', hmk]

/-! ### The loop, iterated -/

theorem procFile_frozen (exif : Str → ProcResult) (dbg : Bool) (st : RunState)
    (c : Str) (m : Str) (h : st.err = some m) : procFile exif dbg st c = st := by
  simp [procFile, h]

theorem foldl_frozen (exif : Str → ProcResult) (dbg : Bool) (l : List Str)
    (st : RunState) (m : Str) (h : st.err = some m) :
    l.foldl (procFile exif dbg) st = st := by
  induction l with
  | nil => rfl
  | cons c l ih =>
    rw [List.foldl_cons, procFile_frozen exif dbg st c m h]
    exact ih

theorem foldl_err_none (exif : Str → ProcResult) (dbg : Bool) (l : List Str)
    (st : RunState) (h : (l.foldl (procFile exif dbg) st).err = none) :
    st.err = none := by
  cases hst : st.err with
  | none => rfl
  | some m =>
    rw [foldl_frozen exif dbg l st m hst, hst] at h
    exact Option.noConfusion h

theorem foldl_rec {α β : Type _} (f : α → β → α) (P : α → Prop) :
    ∀ (l : List β) (a : α), (∀ x b, b ∈ l → P x → P (f x b)) → P a → P (l.foldl f a)
  | [], _, _, ha => ha
  | b :: l, a, h, ha =>
    foldl_rec f P l (f a b) (fun x c hc => h x c (List.mem_cons_of_mem b hc))
      (h a b (List.mem_cons_self b l) ha)

/-! ### Invariants preserved by every iteration -/

theorem procFile_nodup (exif : Str → ProcResult) (dbg : Bool) (st : RunState)
    (c : Str) (h : NodupNames st.fs) : NodupNames (procFile exif dbg st c).fs := by
  rcases procFile_cases exif dbg st c with heq
    | ⟨_, e, _, _, _, hfs, _⟩
    | ⟨_, e, dt, msg, _, _, _, _, hfs, _⟩
    | ⟨_, e, dt, fs1, _, _, _, hmk, hfs, _⟩
  · rw [heq]; exact h
  · rw [hfs]; exact h
  · rw [hfs]; exact h
  · rw [hfs]; exact nodupNames_moveInto _ _ _ (mkdirOp_nodup _ _ _ h hmk)

theorem procFile_file_mem (exif : Str → ProcResult) (dbg : Bool) (st : RunState)
    (c : Str) (x : Entry) (hnd : NodupNames st.fs)
    (hx : x ∈ (procFile exif dbg st c).fs) (hk : x.kind = EKind.file) :
    x ∈ st.fs := by
  rcases procFile_cases exif dbg st c with heq
    | ⟨_, e, _, _, _, hfs, _⟩
    | ⟨_, e, dt, msg, _, _, _, _, hfs, _⟩
    | ⟨_, e, dt, fs1, _, _, _, hmk, hfs, _⟩
  · rw [heq] at hx; exact hx
  · rw [hfs] at hx; exact hx
  · rw [hfs] at hx; exact hx
  · rw [hfs] at hx
    obtain ⟨y, hy, hyn, hyk, _, hcase⟩ := mem_moveInto _ _ _ x hx
    have hyfile : y.kind = EKind.file := by rw [hyk, hk]
    rcases hcase with hxy | hds
    · rcases mkdirOp_mem_elim _ _ _ hmk y hy with h0 | h0
      · rw [hxy]; exact h0
      · rw [h0] at hyfile
        exact absurd hyfile (by simp)
    · exfalso
      rcases mkdirOp_ok _ _ _ hmk with ⟨d, hld, hdk, rfl⟩ | ⟨hnone, rfl⟩
      · obtain ⟨hdm, hdn⟩ := lookupE_some _ _ _ hld
        have : y = d := uniqueEntry _ hnd y d hy hdm (by rw [hyn, hds, hdn])
        rw [this, hdk] at hyfile
        exact EKind.noConfusion hyfile
      · rcases List.mem_append.mp hy with h0 | h0
        · exact (lookupE_none _ _).mp hnone y h0 (hyn.trans hds)
        · have : y = ⟨dateFolder dt, EKind.dir, []⟩ := List.mem_singleton.mp h0
          rw [this] at hyfile
          exact EKind.noConfusion hyfile

theorem procFile_entry_preserved (exif : Str → ProcResult) (dbg : Bool)
    (st : RunState) (c : Str) (x : Entry) (hx : x ∈ st.fs)
    (hg : globDNG x.name = true) (hne : c ≠ x.name) :
    x ∈ (procFile exif dbg st c).fs := by
  rcases procFile_cases exif dbg st c with heq
    | ⟨_, e, _, _, _, hfs, _⟩
    | ⟨_, e, dt, msg, _, _, _, _, hfs, _⟩
    | ⟨_, e, dt, fs1, _, _, hm, hmk, hfs, _⟩
  · rw [heq]; exact hx
  · rw [hfs]; exact hx
  · rw [hfs]; exact hx
  · rw [hfs]
    have hday := metaOf_day_le exif dbg c dt hm
    exact mem_moveInto_of_ne _ _ _ x (mkdirOp_sub _ _ _ hmk x hx)
      (fun hEq => hne (hEq.symm))
      (fun hEq => dateFolder_ne_glob dt x.name hday hg hEq.symm)

theorem procFile_entry_skip (exif : Str → ProcResult) (dbg : Bool)
    (st : RunState) (c : Str) (x : Entry) (hx : x ∈ st.fs)
    (hg : globDNG x.name = true) (hm0 : metaOf exif dbg x.name = none) :
    x ∈ (procFile exif dbg st c).fs := by
  by_cases hc : c = x.name
  · subst hc
    rcases procFile_cases exif dbg st x.name with heq
      | ⟨_, e, _, _, _, hfs, _⟩
      | ⟨_, e, dt, msg, _, _, hm, _, hfs, _⟩
      | ⟨_, e, dt, fs1, _, _, hm, _, hfs, _⟩
    · rw [heq]; exact hx
    · rw [hfs]; exact hx
    · rw [hm0] at hm; exact Option.noConfusion hm
    · rw [hm0] at hm; exact Option.noConfusion hm
  · exact procFile_entry_preserved exif dbg st c x hx hg hc

theorem procFile_absent (exif : Str → ProcResult) (dbg : Bool) (st : RunState)
    (c n : Str) (h : ∀ x ∈ st.fs, x.name ≠ n) (hg : globDNG n = true) :
    ∀ x ∈ (procFile exif dbg st c).fs, x.name ≠ n := by
  rcases procFile_cases exif dbg st c with heq
    | ⟨_, e, _, _, _, hfs, _⟩
    | ⟨_, e, dt, msg, _, _, _, _, hfs, _⟩
    | ⟨_, e, dt, fs1, _, _, hm, hmk, hfs, _⟩
  · rw [heq]; exact h
  · rw [hfs]; exact h
  · rw [hfs]; exact h
  · rw [hfs]
    intro x hx
    obtain ⟨y, hy, hyn, _, _, _⟩ := mem_moveInto _ _ _ x hx
    rcases mkdirOp_mem_elim _ _ _ hmk y hy with h0 | h0
    · rw [← hyn]; exact h y h0
    · rw [← hyn, h0]
      exact dateFolder_ne_glob dt n (metaOf_day_le exif dbg c dt hm) hg

theorem procFile_dir_preserved (exif : Str → ProcResult) (dbg : Bool)
    (st : RunState) (c N f : Str)
    (h : ∃ d ∈ st.fs, d.name = N ∧ d.kind = EKind.dir ∧ f ∈ d.files)
    (hgN : globDNG N = false) (hgc : globDNG c = true) :
    ∃ d ∈ (procFile exif dbg st c).fs, d.name = N ∧ d.kind = EKind.dir ∧
      f ∈ d.files := by
  obtain ⟨d, hd, hdn, hdk, hdf⟩ := h
  rcases procFile_cases exif dbg st c with heq
    | ⟨_, e, _, _, _, hfs, _⟩
    | ⟨_, e, dt, msg, _, _, _, _, hfs, _⟩
    | ⟨_, e, dt, fs1, _, _, hm, hmk, hfs, _⟩
  · rw [heq]; exact ⟨d, hd, hdn, hdk, hdf⟩
  · rw [hfs]; exact ⟨d, hd, hdn, hdk, hdf⟩
  · rw [hfs]; exact ⟨d, hd, hdn, hdk, hdf⟩
  · rw [hfs]
    have hdc : d.name ≠ c := by
      intro hEq
      rw [hdn] at hEq
      rw [← hEq] at hgc
      rw [hgN] at hgc
      exact Bool.noConfusion hgc
    obtain ⟨d', hd', hn', hk', hf'⟩ :=
      moveInto_dir_preserved fs1 c (dateFolder dt) d (mkdirOp_sub _ _ _ hmk d hd) hdc
    exact ⟨d', hd', hn'.trans hdn, hk'.trans hdk, hf' f hdf⟩

theorem procFile_moves_mem (exif : Str → ProcResult) (dbg : Bool)
    (st : RunState) (c : Str) (p : Str × Str) (h : p ∈ st.moves) :
    p ∈ (procFile exif dbg st c).moves := by
  rcases procFile_cases exif dbg st c with heq
    | ⟨_, e, _, _, _, _, _, hmv, _⟩
    | ⟨_, e, dt, msg, _, _, _, _, _, _, hmv, _⟩
    | ⟨_, e, dt, fs1, _, _, _, _, _, _, hmv, _⟩
  · rw [heq]; exact h
  · rw [hmv]; exact h
  · rw [hmv]; exact h
  · rw [hmv]; exact List.mem_append_left _ h

theorem foldl_moves_mem (exif : Str → ProcResult) (dbg : Bool) (l : List Str)
    (st : RunState) (p : Str × Str) (h : p ∈ st.moves) :
    p ∈ (l.foldl (procFile exif dbg) st).moves := by
  refine foldl_rec (procFile exif dbg) (fun st : RunState => p ∈ st.moves) l st ?_ h
  intro x b _ hx
  exact procFile_moves_mem exif dbg x b p hx

/-- Core run lemma: a root-level `*.DNG` regular file whose metadata query
succeeds is, after an error-free run, gone from the root and recorded
inside the directory named after its capture date. -/
theorem organize_reaches (exif : Str → ProcResult) (dbg : Bool)
    (fs0 : List Entry) (e : Entry) (dt : DateTime) (hnd : NodupNames fs0)
    (he : e ∈ fs0) (hk : e.kind = EKind.file) (hg : globDNG e.name = true)
    (hm : metaOf exif dbg e.name = some dt)
    (herr : (organize_dng_files exif fs0 dbg).err = none) :
    (∀ x ∈ (organize_dng_files exif fs0 dbg).fs, x.name ≠ e.name)
    ∧ (∃ d ∈ (organize_dng_files exif fs0 dbg).fs, d.name = dateFolder dt ∧
        d.kind = EKind.dir ∧ e.name ∈ d.files)
    ∧ (e.name, dateFolder dt) ∈ (organize_dng_files exif fs0 dbg).moves := by
  unfold organize_dng_files at herr ⊢
  have hcand : e.name ∈ candidates fs0 :=
    (mem_candidates fs0 e.name).mpr ⟨e, he, rfl, hg⟩
  obtain ⟨l1, l2, hsplit⟩ := List.append_of_mem hcand
  have hndL : (candidates fs0).Nodup := candidates_nodup fs0 hnd
  rw [hsplit] at hndL
  rw [List.nodup_append] at hndL
  obtain ⟨_, hnd2', hdisj⟩ := hndL
  have hne1 : e.name ∉ l1 := fun hmem =>
    hdisj hmem (List.mem_cons_self e.name l2)
  rw [hsplit, List.foldl_append, List.foldl_cons] at herr ⊢
  set init : RunState :=
    ⟨fs0, none, [], [], [], dprint dbg ("Processing directory").data⟩ with hinit
  set st1 := List.foldl (procFile exif dbg) init l1 with hst1
  have hP1 : NodupNames st1.fs ∧ e ∈ st1.fs := by
    refine foldl_rec (procFile exif dbg)
      (fun st : RunState => NodupNames st.fs ∧ e ∈ st.fs) l1 init ?_ ⟨hnd, he⟩
    rintro st c hc ⟨h1, h2⟩
    refine ⟨procFile_nodup exif dbg st c h1,
      procFile_entry_preserved exif dbg st c e h2 hg ?_⟩
    intro hEq
    rw [hEq] at hc
    exact hne1 hc
  have herr2 : (procFile exif dbg st1 e.name).err = none :=
    foldl_err_none exif dbg l2 _ herr
  have herr1 : st1.err = none := by
    cases hst : st1.err with
    | none => rfl
    | some m =>
      rw [procFile_frozen exif dbg st1 e.name m hst, hst] at herr2
      exact Option.noConfusion herr2
  have hl1 : lookupE st1.fs e.name = some e :=
    lookupE_of_mem _ _ _ hP1.1 hP1.2 rfl
  have hday := metaOf_day_le exif dbg e.name dt hm
  have hdsne : dateFolder dt ≠ e.name := dateFolder_ne_glob dt e.name hday hg
  rcases procFile_acts exif dbg st1 e.name e dt herr1 hl1 hk hm with
    ⟨msg, hmk, herrs⟩ | ⟨fs1, hmk, hfs2, _, hmoves2, _, _⟩
  · rw [herrs] at herr2
    exact Option.noConfusion herr2
  · have hA : ∀ x ∈ (procFile exif dbg st1 e.name).fs, x.name ≠ e.name := by
      rw [hfs2]
      intro x hx
      obtain ⟨y, _, hyn, _, hyc, _⟩ := mem_moveInto _ _ _ x hx
      rw [← hyn]
      exact hyc
    have hB : ∃ d ∈ (procFile exif dbg st1 e.name).fs,
        d.name = dateFolder dt ∧ d.kind = EKind.dir ∧ e.name ∈ d.files := by
      rw [hfs2]
      rcases mkdirOp_ok _ _ _ hmk with ⟨d0, hld, hdk, rfl⟩ | ⟨hnone, rfl⟩
      · obtain ⟨hd0m, hd0n⟩ := lookupE_some _ _ _ hld
        obtain ⟨d', hd', hn', hk', hf'⟩ :=
          moveInto_target st1.fs e.name (dateFolder dt) d0 hd0m hd0n
            (by rw [hd0n]; exact hdsne)
        exact ⟨d', hd', hn', hk'.trans hdk, hf'⟩
      · have hnew : (⟨dateFolder dt, EKind.dir, []⟩ : Entry)
            ∈ st1.fs ++ [⟨dateFolder dt, EKind.dir, []⟩] :=
          List.mem_append_right _ (List.mem_singleton_self _)
        obtain ⟨d', hd', hn', hk', hf'⟩ :=
          moveInto_target _ e.name (dateFolder dt) _ hnew rfl hdsne
        exact ⟨d', hd', hn', hk', hf'⟩
    have hC : (e.name, dateFolder dt) ∈ (procFile exif dbg st1 e.name).moves := by
      rw [hmoves2]
      exact List.mem_append_right _ (List.mem_singleton_self _)
    have hglobs : ∀ c ∈ l2, globDNG c = true := by
      intro c hc
      refine candidates_glob fs0 c ?_
      rw [hsplit]
      exact List.mem_append_right _ (List.mem_cons_of_mem _ hc)
    have hgds : globDNG (dateFolder dt) = false := globDNG_dateFolder dt hday
    refine ⟨?_, ?_, ?_⟩
    · refine foldl_rec (procFile exif dbg)
        (fun st : RunState => ∀ x ∈ st.fs, x.name ≠ e.name) l2 _ ?_ hA
      intro st c _ hP
      exact procFile_absent exif dbg st c e.name hP hg
    · refine foldl_rec (procFile exif dbg)
        (fun st : RunState => ∃ d ∈ st.fs, d.name = dateFolder dt ∧
          d.kind = EKind.dir ∧ e.name ∈ d.files) l2 _ ?_ hB
      intro st c hc hP
      exact procFile_dir_preserved exif dbg st c (dateFolder dt) e.name hP hgds
        (hglobs c hc)
    · exact foldl_moves_mem exif dbg l2 _ _ hC

theorem procFile_moves_meta (exif : Str → ProcResult) (dbg : Bool)
    (st : RunState) (c : Str)
    (h : ∀ p ∈ st.moves, ∃ dtp, metaOf exif dbg p.1 = some dtp ∧
      p.2 = dateFolder dtp) :
    ∀ p ∈ (procFile exif dbg st c).moves, ∃ dtp, metaOf exif dbg p.1 = some dtp ∧
      p.2 = dateFolder dtp := by
  rcases procFile_cases exif dbg st c with heq
    | ⟨_, e, _, _, _, _, _, hmv, _⟩
    | ⟨_, e, dt, msg, _, _, _, _, _, _, hmv, _⟩
    | ⟨_, e, dt, fs1, _, _, hm, _, _, _, hmv, _⟩
  · rw [heq]; exact h
  · rw [hmv]; exact h
  · rw [hmv]; exact h
  · rw [hmv]
    intro p hp
    rcases List.mem_append.mp hp with hp | hp
    · exact h p hp
    · have hpc := List.mem_singleton.mp hp
      rw [hpc]
      exact ⟨dt, hm, rfl⟩

/-- In an `organize_dng_files` run, every recorded move carries a name whose
metadata query succeeded, and its target is the matching date folder. -/
theorem organize_moves_meta (exif : Str → ProcResult) (dbg : Bool)
    (fs0 : List Entry) :
    ∀ p ∈ (organize_dng_files exif fs0 dbg).moves,
      ∃ dtp, metaOf exif dbg p.1 = some dtp ∧ p.2 = dateFolder dtp := by
  unfold organize_dng_files
  refine foldl_rec (procFile exif dbg)
    (fun st : RunState => ∀ p ∈ st.moves, ∃ dtp, metaOf exif dbg p.1 = some dtp ∧
      p.2 = dateFolder dtp)
    (candidates fs0) _ ?_ (by intro p hp; exact absurd hp (List.not_mem_nil p))
  intro st c _ hP
  exact procFile_moves_meta exif dbg st c hP

/-- A candidate whose metadata query fails survives the run in place and is
never the subject of a move. -/
theorem organize_keeps (exif : Str → ProcResult) (dbg : Bool) (fs0 : List Entry)
    (e : Entry) (he : e ∈ fs0) (hg : globDNG e.name = true)
    (hm : metaOf exif dbg e.name = none) :
    e ∈ (organize_dng_files exif fs0 dbg).fs
    ∧ ∀ p ∈ (organize_dng_files exif fs0 dbg).moves, p.1 ≠ e.name := by
  constructor
  · unfold organize_dng_files
    refine foldl_rec (procFile exif dbg) (fun st : RunState => e ∈ st.fs)
      (candidates fs0) _ ?_ he
    intro st c _ hP
    exact procFile_entry_skip exif dbg st c e hP hg hm
  · intro p hp hpe
    obtain ⟨dtp, hmp, _⟩ := organize_moves_meta exif dbg fs0 p hp
    rw [hpe, hm] at hmp
    exact Option.noConfusion hmp

theorem foldl_moves_sub (exif : Str → ProcResult) (dbg : Bool) :
    ∀ (l : List Str) (st : RunState),
    ∃ t, (l.foldl (procFile exif dbg) st).moves = st.moves ++ t ∧
      List.Sublist (t.map Prod.fst) l := by
  intro l
  induction l with
  | nil => intro st; exact ⟨[], by simp, by simp⟩
  | cons c l ih =>
    intro st
    obtain ⟨t, ht, hsub⟩ := ih (procFile exif dbg st c)
    rcases procFile_cases exif dbg st c with heq
      | ⟨_, e, _, _, _, _, _, hmv, _⟩
      | ⟨_, e, dt, msg, _, _, _, _, _, _, hmv, _⟩
      | ⟨_, e, dt, fs1, _, _, _, _, _, _, hmv, _⟩
    · refine ⟨t, ?_, hsub.trans (List.sublist_cons_self c l)⟩
      rw [List.foldl_cons, ht, heq]
    · refine ⟨t, ?_, hsub.trans (List.sublist_cons_self c l)⟩
      rw [List.foldl_cons, ht, hmv]
    · refine ⟨t, ?_, hsub.trans (List.sublist_cons_self c l)⟩
      rw [List.foldl_cons, ht, hmv]
    · refine ⟨(c, dateFolder dt) :: t, ?_, ?_⟩
      · rw [List.foldl_cons, ht, hmv, List.append_assoc]
        rfl
      · simpa using List.Sublist.cons₂ c hsub

/-- No candidate name is moved more than once in a run over a directory
whose children have distinct names: the sources of the recorded moves are
pairwise distinct. -/
theorem organize_moves_nodup (exif : Str → ProcResult) (dbg : Bool)
    (fs0 : List Entry) (hnd : NodupNames fs0) :
    ((organize_dng_files exif fs0 dbg).moves.map Prod.fst).Nodup := by
  unfold organize_dng_files
  obtain ⟨t, ht, hsub⟩ := foldl_moves_sub exif dbg (candidates fs0)
    ⟨fs0, none, [], [], [], dprint dbg ("Processing directory").data⟩
  rw [ht]
  simp only [List.nil_append]
  exact hsub.nodup (candidates_nodup fs0 hnd)

/-! ### Frame: only root-level matching regular files are queried or moved -/

/-- Every metadata query and every move of a run concerns the name of a
root-level, `*.DNG`-matching regular file of the initial directory. -/
theorem organize_frame (exif : Str → ProcResult) (dbg : Bool)
    (fs0 : List Entry) (hnd : NodupNames fs0) :
    (∀ q ∈ (organize_dng_files exif fs0 dbg).queried,
      ∃ e ∈ fs0, e.name = q ∧ e.kind = EKind.file ∧ globDNG q = true)
    ∧ (∀ p ∈ (organize_dng_files exif fs0 dbg).moves,
      ∃ e ∈ fs0, e.name = p.1 ∧ e.kind = EKind.file ∧ globDNG p.1 = true) := by
  unfold organize_dng_files
  have h := foldl_rec (procFile exif dbg)
    (fun st : RunState =>
      NodupNames st.fs ∧ (∀ y ∈ st.fs, y.kind = EKind.file → y ∈ fs0) ∧
      (∀ q ∈ st.queried, ∃ e ∈ fs0, e.name = q ∧ e.kind = EKind.file ∧
        globDNG q = true) ∧
      (∀ p ∈ st.moves, ∃ e ∈ fs0, e.name = p.1 ∧ e.kind = EKind.file ∧
        globDNG p.1 = true))
    (candidates fs0)
    ⟨fs0, none, [], [], [], dprint dbg ("Processing directory").data⟩
    ?_ ⟨hnd, fun y hy _ => hy, by simp, by simp⟩
  · exact ⟨h.2.2.1, h.2.2.2⟩
  · rintro st c hc ⟨h1, h2, h3, h4⟩
    have hgc := candidates_glob fs0 c hc
    refine ⟨procFile_nodup exif dbg st c h1, ?_, ?_, ?_⟩
    · intro y hy hyk
      exact h2 y (procFile_file_mem exif dbg st c y h1 hy hyk) hyk
    · rcases procFile_cases exif dbg st c with heq
        | ⟨_, e, hl, hke, _, _, _, _, _, hq⟩
        | ⟨_, e, dt, msg, hl, hke, _, _, _, _, _, _, hq⟩
        | ⟨_, e, dt, fs1, hl, hke, _, _, _, _, _, _, hq⟩
      · rw [heq]; exact h3
      all_goals
        rw [hq]
        intro q hqm
        rcases List.mem_append.mp hqm with hqm | hqm
        · exact h3 q hqm
        · obtain ⟨hem, hen⟩ := lookupE_some _ _ _ hl
          have hq0 := List.mem_singleton.mp hqm
          rw [hq0]
          exact ⟨e, h2 e hem hke, hen, hke, hgc⟩
    · rcases procFile_cases exif dbg st c with heq
        | ⟨_, e, hl, hke, _, _, _, hmv, _⟩
        | ⟨_, e, dt, msg, hl, hke, _, _, _, _, hmv, _⟩
        | ⟨_, e, dt, fs1, hl, hke, _, _, _, _, hmv, _⟩
      · rw [heq]; exact h4
      · rw [hmv]; exact h4
      · rw [hmv]; exact h4
      · rw [hmv]
        intro p hpm
        rcases List.mem_append.mp hpm with hpm | hpm
        · exact h4 p hpm
        · obtain ⟨hem, hen⟩ := lookupE_some _ _ _ hl
          have hp0 := List.mem_singleton.mp hpm
          rw [hp0]
          exact ⟨e, h2 e hem hke, hen, hke, hgc⟩

/-- Entries that are not candidates (wrong extension, or not a regular
file) survive the run: same name, same kind, directory contents can only
grow, and anything other than a directory is bit-for-bit untouched. -/
theorem organize_untouched (exif : Str → ProcResult) (dbg : Bool)
    (fs0 : List Entry) (x : Entry) (hnd : NodupNames fs0) (hx : x ∈ fs0)
    (hnc : ¬(globDNG x.name = true ∧ x.kind = EKind.file)) :
    ∃ x' ∈ (organize_dng_files exif fs0 dbg).fs, x'.name = x.name ∧
      x'.kind = x.kind ∧ (∀ m ∈ x.files, m ∈ x'.files) ∧
      (x.kind ≠ EKind.dir → x' = x) := by
  unfold organize_dng_files
  have h := foldl_rec (procFile exif dbg)
    (fun st : RunState => NodupNames st.fs ∧ ∃ x' ∈ st.fs, x'.name = x.name ∧
      x'.kind = x.kind ∧ (∀ m ∈ x.files, m ∈ x'.files) ∧
      (x.kind ≠ EKind.dir → x' = x))
    (candidates fs0)
    ⟨fs0, none, [], [], [], dprint dbg ("Processing directory").data⟩
    ?_ ⟨hnd, x, hx, rfl, rfl, fun m hm => hm, fun _ => rfl⟩
  · exact h.2
  · rintro st c hc ⟨h1, x', hx', hn', hk', hf', hex'⟩
    have hgc := candidates_glob fs0 c hc
    refine ⟨procFile_nodup exif dbg st c h1, ?_⟩
    rcases procFile_cases exif dbg st c with heq
      | ⟨_, e, hl, hke, _, hfs, _⟩
      | ⟨_, e, dt, msg, hl, hke, _, _, hfs, _⟩
      | ⟨_, e, dt, fs1, hl, hke, hm, hmk, hfs, _⟩
    · rw [heq]; exact ⟨x', hx', hn', hk', hf', hex'⟩
    · rw [hfs]; exact ⟨x', hx', hn', hk', hf', hex'⟩
    · rw [hfs]; exact ⟨x', hx', hn', hk', hf', hex'⟩
    · have hcx : c ≠ x'.name := by
        intro hEq
        obtain ⟨hem, hen⟩ := lookupE_some _ _ _ hl
        have hex : e = x' := uniqueEntry _ h1 e x' hem hx' (by rw [hen, hEq])
        apply hnc
        constructor
        · rw [← hn', ← hEq]; exact hgc
        · rw [← hk', ← hex]; exact hke
      rw [hfs]
      by_cases hdircase : x.kind = EKind.dir
      · obtain ⟨x'', hx'', hn'', hk'', hf''⟩ :=
          moveInto_dir_preserved fs1 c (dateFolder dt) x'
            (mkdirOp_sub _ _ _ hmk x' hx') (fun hEq => hcx hEq.symm)
        exact ⟨x'', hx'', hn''.trans hn', hk''.trans hk',
          fun m hm => hf'' m (hf' m hm), fun hnd' => absurd hdircase hnd'⟩
      · have hx'ds : x'.name ≠ dateFolder dt := by
          intro hEq
          rcases mkdirOp_ok _ _ _ hmk with ⟨d0, hld, hdk, rfl⟩ | ⟨hnone, _⟩
          · obtain ⟨hd0m, hd0n⟩ := lookupE_some _ _ _ hld
            have hxd : x' = d0 := uniqueEntry _ h1 x' d0 hx' hd0m (by rw [hEq, hd0n])
            apply hdircase
            rw [← hk', hxd, hdk]
          · exact (lookupE_none _ _).mp hnone x' hx' hEq
        refine ⟨x', mem_moveInto_of_ne fs1 c (dateFolder dt) x'
          (mkdirOp_sub _ _ _ hmk x' hx') (fun hEq => hcx hEq.symm) hx'ds,
          hn', hk', hf', fun _ => hex' hdircase⟩

/-! ### Idempotence machinery -/

/-- After an error-free run, every remaining root-level `*.DNG` regular
file is one whose metadata query fails (everything else was moved away). -/
theorem organize_leftover (exif : Str → ProcResult) (dbg : Bool)
    (fs0 : List Entry) (hnd : NodupNames fs0)
    (herr : (organize_dng_files exif fs0 dbg).err = none) :
    ∀ x ∈ (organize_dng_files exif fs0 dbg).fs, globDNG x.name = true →
      x.kind = EKind.file → metaOf exif dbg x.name = none := by
  intro x hx hg hk
  cases hmx : metaOf exif dbg x.name with
  | none => rfl
  | some dt =>
    exfalso
    have hx0 : x ∈ fs0 := by
      have hmem : x ∈ (organize_dng_files exif fs0 dbg).fs := hx
      unfold organize_dng_files at hmem
      have h := foldl_rec (procFile exif dbg)
        (fun st : RunState => NodupNames st.fs ∧
          ∀ y ∈ st.fs, y.kind = EKind.file → y ∈ fs0)
        (candidates fs0)
        ⟨fs0, none, [], [], [], dprint dbg ("Processing directory").data⟩
        ?_ ⟨hnd, fun y hy _ => hy⟩
      · exact h.2 x hmem hk
      · rintro st c _ ⟨h1, h2⟩
        refine ⟨procFile_nodup exif dbg st c h1, ?_⟩
        intro y hy hyk
        exact h2 y (procFile_file_mem exif dbg st c y h1 hy hyk) hyk
    obtain ⟨habs, _, _⟩ := organize_reaches exif dbg fs0 x dt hnd hx0 hk hg hmx herr
    exact habs x hx rfl

/-- A run over a directory in which no candidate has readable metadata
does nothing: no move, no mkdir, no error, identical directory. -/
theorem organize_noop (exif : Str → ProcResult) (dbg : Bool) (fsA : List Entry)
    (h : ∀ x ∈ fsA, globDNG x.name = true → x.kind = EKind.file →
      metaOf exif dbg x.name = none) :
    (organize_dng_files exif fsA dbg).fs = fsA
    ∧ (organize_dng_files exif fsA dbg).err = none
    ∧ (organize_dng_files exif fsA dbg).moves = []
    ∧ (organize_dng_files exif fsA dbg).mkdirs = [] := by
  unfold organize_dng_files
  refine foldl_rec (procFile exif dbg)
    (fun st : RunState => st.fs = fsA ∧ st.err = none ∧ st.moves = [] ∧
      st.mkdirs = [])
    (candidates fsA)
    ⟨fsA, none, [], [], [], dprint dbg ("Processing directory").data⟩
    ?_ ⟨rfl, rfl, rfl, rfl⟩
  rintro st c hc ⟨h1, h2, h3, h4⟩
  rcases procFile_cases exif dbg st c with heq
    | ⟨_, e, hl, hke, _, hfs, herr', hmv, hmk', _⟩
    | ⟨_, e, dt, msg, hl, hke, hm, _, hfs, _⟩
    | ⟨_, e, dt, fs1, hl, hke, hm, _, hfs, _⟩
  · rw [heq]; exact ⟨h1, h2, h3, h4⟩
  · exact ⟨hfs.trans h1, herr', hmv.trans h3, hmk'.trans h4⟩
  all_goals {
    exfalso
    obtain ⟨hem, hen⟩ := lookupE_some _ _ _ hl
    rw [h1] at hem
    have := h e hem (by rw [hen]; exact candidates_glob fsA c hc) hke
    rw [← hen, this] at hm
    exact Option.noConfusion hm }

/-! ### The debug flag only affects the trace -/

theorem metaOf_debug (exif : Str → ProcResult) (d1 d2 : Bool) (c : Str) :
    metaOf exif d1 c = metaOf exif d2 c := by
  unfold metaOf get_date_taken
  cases get_date_taken_core (exif c) <;> rfl

theorem procFile_debug (exif : Str → ProcResult) (d1 d2 : Bool)
    (st st' : RunState) (c : Str) (hfs : st.fs = st'.fs)
    (herr : st.err = st'.err) (hmv : st.moves = st'.moves)
    (hmk : st.mkdirs = st'.mkdirs) (hq : st.queried = st'.queried) :
    (procFile exif d1 st c).fs = (procFile exif d2 st' c).fs ∧
    (procFile exif d1 st c).err = (procFile exif d2 st' c).err ∧
    (procFile exif d1 st c).moves = (procFile exif d2 st' c).moves ∧
    (procFile exif d1 st c).mkdirs = (procFile exif d2 st' c).mkdirs ∧
    (procFile exif d1 st c).queried = (procFile exif d2 st' c).queried := by
  have hmeta : (get_date_taken exif d1 c).1 = (get_date_taken exif d2 c).1 :=
    metaOf_debug exif d1 d2 c
  cases herr0 : st.err with
  | some m =>
    have herr0' : st'.err = some m := by rw [← herr, herr0]
    rw [procFile_frozen exif d1 st c m herr0, procFile_frozen exif d2 st' c m herr0']
    exact ⟨hfs, herr, hmv, hmk, hq⟩
  | none =>
    have herr0' : st'.err = none := by rw [← herr, herr0]
    cases hl : lookupE st.fs c with
    | none =>
      have hl' : lookupE st'.fs c = none := by rw [← hfs, hl]
      refine ⟨?_, ?_, ?_, ?_, ?_⟩ <;>
        simp [procFile, herr0, herr0', hl, hl', hfs, herr, hmv, hmk, hq]
    | some e =>
      have hl' : lookupE st'.fs c = some e := by rw [← hfs, hl]
      by_cases hk : e.kind = EKind.file
      · cases hm1 : (get_date_taken exif d1 c).1 with
        | none =>
          have hm2 : (get_date_taken exif d2 c).1 = none := by rw [← hmeta, hm1]
          refine ⟨?_, ?_, ?_, ?_, ?_⟩ <;>
            simp [procFile, herr0, herr0', hl, hl', hk, hm1, hm2, hfs, herr,
              hmv, hmk, hq]
        | some dt =>
          have hm2 : (get_date_taken exif d2 c).1 = some dt := by rw [← hmeta, hm1]
          cases hmk0 : mkdirOp st.fs (dateFolder dt) with
          | error msg =>
            have hmk0' : mkdirOp st'.fs (dateFolder dt) = Except.error msg := by
              rw [← hfs, hmk0]
            refine ⟨?_, ?_, ?_, ?_, ?_⟩ <;>
              simp [procFile, herr0, herr0', hl, hl', hk, hm1, hm2, hmk0, hmk0',
                hfs, herr, hmv, hmk, hq]
          | ok fs1 =>
            have hmk0' : mkdirOp st'.fs (dateFolder dt) = Except.ok fs1 := by
              rw [← hfs, hmk0]
            refine ⟨?_, ?_, ?_, ?_, ?_⟩ <;>
              simp [procFile, herr0, herr0', hl, hl', hk, hm1, hm2, hmk0, hmk0',
                hfs, herr, hmv, hmk, hq]
      · refine ⟨?_, ?_, ?_, ?_, ?_⟩ <;>
          simp [procFile, herr0, herr0', hl, hl', bne_iff_ne, hk, hfs, herr,
            hmv, hmk, hq]

theorem foldl_debug (exif : Str → ProcResult) (d1 d2 : Bool) (l : List Str) :
    ∀ (st st' : RunState), st.fs = st'.fs → st.err = st'.err →
    st.moves = st'.moves → st.mkdirs = st'.mkdirs → st.queried = st'.queried →
    (l.foldl (procFile exif d1) st).fs = (l.foldl (procFile exif d2) st').fs ∧
    (l.foldl (procFile exif d1) st).err = (l.foldl (procFile exif d2) st').err ∧
    (l.foldl (procFile exif d1) st).moves
      = (l.foldl (procFile exif d2) st').moves ∧
    (l.foldl (procFile exif d1) st).mkdirs
      = (l.foldl (procFile exif d2) st').mkdirs ∧
    (l.foldl (procFile exif d1) st).queried
      = (l.foldl (procFile exif d2) st').queried := by
  induction l with
  | nil => intro st st' h1 h2 h3 h4 h5; exact ⟨h1, h2, h3, h4, h5⟩
  | cons c l ih =>
    intro st st' h1 h2 h3 h4 h5
    obtain ⟨g1, g2, g3, g4, g5⟩ := procFile_debug exif d1 d2 st st' c h1 h2 h3 h4 h5
    exact ih (procFile exif d1 st c) (procFile exif d2 st' c) g1 g2 g3 g4 g5

/-! ### Splitting around the first separator -/

/-- If `label` contains no `': '`, splitting `label ++ ': ' ++ v` breaks at
exactly that first separator. -/
theorem splitColonSpace_append (v : Str) :
    ∀ label : Str, splitColonSpace label = [label] →
      splitColonSpace (label ++ ':' :: ' ' :: v) = label :: splitColonSpace v := by
  intro label
  induction label with
  | nil =>
    intro _
    show splitColonSpace (':' :: ' ' :: v) = [] :: splitColonSpace v
    rw [splitColonSpace]
    rw [if_pos ⟨rfl, rfl⟩]
  | cons a tail ih =>
    intro h
    cases tail with
    | nil =>
      show splitColonSpace (a :: ':' :: ' ' :: v) = [a] :: splitColonSpace v
      rw [splitColonSpace]
      rw [if_neg (by rintro ⟨_, h2⟩; exact absurd (h2 : ':' = ' ') (by decide))]
      rw [show splitColonSpace (':' :: ' ' :: v) = [] :: splitColonSpace v by
        rw [splitColonSpace]; rw [if_pos ⟨rfl, rfl⟩]]
    | cons b tail' =>
      have hsplit : splitColonSpace (a :: b :: tail')
          = if a = ':' ∧ b = ' ' then [] :: splitColonSpace tail'
            else match splitColonSpace (b :: tail') with
              | [] => [[a]]
              | p :: ps => (a :: p) :: ps := by
        rw [splitColonSpace]
      by_cases hab : a = ':' ∧ b = ' '
      · rw [hsplit, if_pos hab] at h
        exact absurd (List.head_eq_of_cons_eq h) (by simp)
      · rw [hsplit, if_neg hab] at h
        cases hsp : splitColonSpace (b :: tail') with
        | nil =>
          rw [hsp] at h
          have := List.head_eq_of_cons_eq h
          exact absurd (List.tail_eq_of_cons_eq (this : [a] = a :: b :: tail'))
            (by simp)
        | cons p ps =>
          rw [hsp] at h
          have h1 := List.head_eq_of_cons_eq h
          have h2 := List.tail_eq_of_cons_eq h
          have hp : p = b :: tail' := List.tail_eq_of_cons_eq h1
          have htail : splitColonSpace (b :: tail') = [b :: tail'] := by
            rw [hsp, hp, h2]
          have ihres := ih htail
          show splitColonSpace (a :: b :: (tail' ++ ':' :: ' ' :: v))
            = (a :: b :: tail') :: splitColonSpace v
      -- reduce the outer application with the same if/match equation
          rw [splitColonSpace]
          rw [if_neg hab]
          rw [show (b :: (tail' ++ ':' :: ' ' :: v)) = (b :: tail') ++ ':' :: ' ' :: v
            from rfl]
          rw [ihres]

/-! ### Claim-facing theorems -/

theorem get_date_taken_eq (exif : Str → ProcResult) (dbg : Bool) (p : Str) :
    (get_date_taken exif dbg p).fst =
      (if (exif p).returncode = 0 ∧ (exif p).stdout ≠ [] then
        match (splitColonSpace (exif p).stdout).get? 1 with
        | none => none
        | some part => strptimeYmdHMS (pyStrip part)
      else none) := by
  unfold get_date_taken
  cases hc : get_date_taken_core (exif p) with
  | ok v =>
    simp only []
    unfold get_date_taken_core at hc
    split at hc
    · rename_i h0
      rw [if_pos h0]
      split at hc
      · exact absurd hc (by simp)
      · rename_i part hg
        split at hc
        · exact absurd hc (by simp)
        · rename_i dt hs
          simp only [Except.ok.injEq] at hc
          rw [hs, ← hc]
    · rename_i h0
      rw [if_neg h0]
      simp only [Except.ok.injEq] at hc
      exact hc.symm
  | error u =>
    simp only []
    unfold get_date_taken_core at hc
    split at hc
    · rename_i h0
      rw [if_pos h0]
      split at hc
      · rfl
      · rename_i part hg
        split at hc
        · rename_i hs
          rw [hs]
        · exact absurd hc (by simp)
    · exact absurd hc (by simp)

/-- C3: `get_date_taken` never lets an exception escape (it is a total
function into `Option`), and it answers `None` exactly when the subprocess
exits non-zero, prints nothing, prints no `': '`-separated label/value
pair, or the extracted value does not parse in the `%Y:%m:%d %H:%M:%S`
format; otherwise it answers the parsed timestamp. -/
theorem c3_reader_contract (exif : Str → ProcResult) (dbg : Bool) (p : Str) :
    ((get_date_taken exif dbg p).fst = none ↔
      ((exif p).returncode ≠ 0 ∨ (exif p).stdout = [] ∨
        (splitColonSpace (exif p).stdout).get? 1 = none ∨
        ((splitColonSpace (exif p).stdout).get? 1).map
          (fun part => strptimeYmdHMS (pyStrip part)) = some none))
    ∧ (∀ dt : DateTime, (get_date_taken exif dbg p).fst = some dt ↔
        ((exif p).returncode = 0 ∧ (exif p).stdout ≠ [] ∧
          ((splitColonSpace (exif p).stdout).get? 1).map
            (fun part => strptimeYmdHMS (pyStrip part)) = some (some dt))) := by
  have heq := get_date_taken_eq exif dbg p
  constructor
  · rw [heq]
    by_cases h0 : (exif p).returncode = 0 ∧ (exif p).stdout ≠ []
    · rw [if_pos h0]
      cases hg : (splitColonSpace (exif p).stdout).get? 1 with
      | none => simp
      | some part =>
        cases hs : strptimeYmdHMS (pyStrip part) with
        | none => simp [hs, h0.1, h0.2]
        | some dt => simp [hs, h0.1, h0.2]
    · rw [if_neg h0]
      have hor : (exif p).returncode ≠ 0 ∨ (exif p).stdout = [] := by tauto
      simp only [eq_self_iff_true, true_iff]
      rcases hor with h | h
      · exact Or.inl h
      · exact Or.inr (Or.inl h)
  · intro dt
    rw [heq]
    by_cases h0 : (exif p).returncode = 0 ∧ (exif p).stdout ≠ []
    · rw [if_pos h0]
      cases hg : (splitColonSpace (exif p).stdout).get? 1 with
      | none => simp [h0.1, h0.2]
      | some part =>
        cases hs : strptimeYmdHMS (pyStrip part) with
        | none => simp [hs, h0.1, h0.2]
        | some dt' => simp [hs, h0.1, h0.2, eq_comm]
    · rw [if_neg h0]
      constructor
      · intro hfalse
        exact Option.noConfusion hfalse
      · intro hcon
        exact absurd ⟨hcon.1, hcon.2.1⟩ h0

/-- C10 (amended): the label is never checked.  Whenever exiftool exits 0
and its stdout is `label ++ ': ' ++ value` where neither the label nor the
value contains a further `': '` and the stripped value parses in the
expected format, `get_date_taken` returns that timestamp whatever the
label says. -/
theorem c10_label_ignored (exif : Str → ProcResult) (dbg : Bool) (p : Str)
    (label v : Str) (dt : DateTime)
    (hlabel : splitColonSpace label = [label])
    (hv : splitColonSpace v = [v])
    (hparse : strptimeYmdHMS (pyStrip v) = some dt)
    (hout : exif p = ⟨0, label ++ ':' :: ' ' :: v⟩) :
    (get_date_taken exif dbg p).fst = some dt := by
  rw [get_date_taken_eq, hout]
  rw [if_pos ⟨rfl, by simp⟩]
  rw [show (⟨0, label ++ ':' :: ' ' :: v⟩ : ProcResult).stdout
    = label ++ ':' :: ' ' :: v from rfl]
  rw [splitColonSpace_append v label hlabel, hv]
  exact hparse

/-- C10, as literally stated, is false: with exit code 0 and a stdout that
does contain `': '` followed by a parseable timestamp string, the reader
can still answer `None` — the text before that separator is not arbitrary,
because an earlier `': '` inside it shifts which fragment is parsed. -/
theorem c10_counterexample :
    (("A: B: 2023:05:14 10:22:00\n").data
        = ("A: B").data ++ ':' :: ' ' :: ("2023:05:14 10:22:00\n").data)
    ∧ strptimeYmdHMS (pyStrip ("2023:05:14 10:22:00\n").data)
        = some ⟨2023, 5, 14, 10, 22, 0⟩
    ∧ (get_date_taken
        (fun _ => ⟨0, ("A: B: 2023:05:14 10:22:00\n").data⟩)
        false ("IMG_1.DNG").data).fst = none := by
  exact ⟨by decide, by decide, by decide⟩

theorem organize_nodup (exif : Str → ProcResult) (dbg : Bool)
    (fs0 : List Entry) (hnd : NodupNames fs0) :
    NodupNames (organize_dng_files exif fs0 dbg).fs := by
  unfold organize_dng_files
  refine foldl_rec (procFile exif dbg) (fun st : RunState => NodupNames st.fs)
    (candidates fs0) _ ?_ hnd
  intro st c _ h
  exact procFile_nodup exif dbg st c h

theorem filter_name_unique (fs : List Entry) (N : Str) (hnd : NodupNames fs)
    (d : Entry) (hd : d ∈ fs) (hdn : d.name = N) :
    (fs.filter (fun x => x.name == N)).length = 1 := by
  induction fs with
  | nil => cases hd
  | cons e fs ih =>
    unfold NodupNames at hnd
    rw [List.map_cons, List.nodup_cons] at hnd
    obtain ⟨hnm, hnd'⟩ := hnd
    rcases List.mem_cons.mp hd with rfl | hd'
    · rw [List.filter_cons, if_pos (by simpa using hdn)]
      have hrest : fs.filter (fun x => x.name == N) = [] := by
        rw [List.filter_eq_nil_iff]
        intro a ha hcon
        apply hnm
        rw [List.mem_map]
        refine ⟨a, ha, ?_⟩
        rw [beq_iff_eq.mp hcon, hdn]
      rw [hrest]
      rfl
    · have henN : e.name ≠ N := by
        intro hEq
        apply hnm
        rw [List.mem_map]
        exact ⟨d, hd', hdn.trans hEq.symm⟩
      rw [List.filter_cons, if_neg (by simpa using henN)]
      exact ih hnd' hd'

/-- C1: a root-level candidate file with a readable capture timestamp ends
up, after an error-free run, inside the `YYYY-MM-DD` directory named after
the date portion of that timestamp, and no longer exists at its original
root-level path. -/
theorem c1_relocated_by_date (exif : Str → ProcResult) (dbg : Bool)
    (fs0 : List Entry) (e : Entry) (dt : DateTime)
    (hnd : NodupNames fs0) (he : e ∈ fs0) (hk : e.kind = EKind.file)
    (hg : globDNG e.name = true) (hm : metaOf exif dbg e.name = some dt)
    (herr : (organize_dng_files exif fs0 dbg).err = none) :
    (∃ d ∈ (organize_dng_files exif fs0 dbg).fs, d.name = dateFolder dt ∧
      d.kind = EKind.dir ∧ e.name ∈ d.files)
    ∧ lookupE (organize_dng_files exif fs0 dbg).fs e.name = none := by
  obtain ⟨habs, hB, _⟩ :=
    organize_reaches exif dbg fs0 e dt hnd he hk hg hm herr
  exact ⟨hB, (lookupE_none _ _).mpr habs⟩

theorem c1_relocated_by_date_witness :
    (∃ d ∈ (organize_dng_files
        (fun _ => ⟨0, ("Date/Time Original              : 2023:05:14 10:22:00\n").data⟩)
        [⟨("IMG_1.DNG").data, EKind.file, []⟩] false).fs,
      d.name = dateFolder ⟨2023, 5, 14, 10, 22, 0⟩ ∧
      d.kind = EKind.dir ∧ ("IMG_1.DNG").data ∈ d.files)
    ∧ lookupE (organize_dng_files
        (fun _ => ⟨0, ("Date/Time Original              : 2023:05:14 10:22:00\n").data⟩)
        [⟨("IMG_1.DNG").data, EKind.file, []⟩] false).fs (("IMG_1.DNG").data)
      = none :=
  c1_relocated_by_date
    (fun _ => ⟨0, ("Date/Time Original              : 2023:05:14 10:22:00\n").data⟩)
    false [⟨("IMG_1.DNG").data, EKind.file, []⟩]
    ⟨("IMG_1.DNG").data, EKind.file, []⟩ ⟨2023, 5, 14, 10, 22, 0⟩
    (by unfold NodupNames; decide) (by decide) (by decide) (by decide) (by decide)
    (by decide)

/-- C2: in an error-free run, a candidate file is moved exactly when its
metadata query returns a timestamp; a candidate with no timestamp stays in
place untouched and is the subject of no move; a candidate with a
timestamp leaves the root and lands in the single matching date directory;
and no name is ever moved twice. -/
theorem c2_move_iff_timestamp (exif : Str → ProcResult) (dbg : Bool)
    (fs0 : List Entry) (e : Entry) (hnd : NodupNames fs0) (he : e ∈ fs0)
    (hk : e.kind = EKind.file) (hg : globDNG e.name = true)
    (herr : (organize_dng_files exif fs0 dbg).err = none) :
    ((∃ dt, metaOf exif dbg e.name = some dt) ↔
      ∃ ds, (e.name, ds) ∈ (organize_dng_files exif fs0 dbg).moves)
    ∧ (metaOf exif dbg e.name = none →
        e ∈ (organize_dng_files exif fs0 dbg).fs ∧
        ∀ p ∈ (organize_dng_files exif fs0 dbg).moves, p.1 ≠ e.name)
    ∧ (∀ dt, metaOf exif dbg e.name = some dt →
        lookupE (organize_dng_files exif fs0 dbg).fs e.name = none ∧
        (e.name, dateFolder dt) ∈ (organize_dng_files exif fs0 dbg).moves ∧
        ∃ d ∈ (organize_dng_files exif fs0 dbg).fs, d.name = dateFolder dt ∧
          d.kind = EKind.dir ∧ e.name ∈ d.files)
    ∧ ((organize_dng_files exif fs0 dbg).moves.map Prod.fst).Nodup := by
  refine ⟨⟨?_, ?_⟩, ?_, ?_, organize_moves_nodup exif dbg fs0 hnd⟩
  · rintro ⟨dt, hm⟩
    obtain ⟨_, _, hmv⟩ := organize_reaches exif dbg fs0 e dt hnd he hk hg hm herr
    exact ⟨dateFolder dt, hmv⟩
  · rintro ⟨ds, hds⟩
    obtain ⟨dtp, hmp, _⟩ := organize_moves_meta exif dbg fs0 (e.name, ds) hds
    exact ⟨dtp, hmp⟩
  · intro hm
    exact organize_keeps exif dbg fs0 e he hg hm
  · intro dt hm
    obtain ⟨habs, hB, hmv⟩ :=
      organize_reaches exif dbg fs0 e dt hnd he hk hg hm herr
    exact ⟨(lookupE_none _ _).mpr habs, hmv, hB⟩

theorem c2_move_iff_timestamp_witness :
    ∃ ds, ((("IMG_1.DNG").data, ds)
      ∈ (organize_dng_files
          (fun _ => ⟨0, ("Date/Time Original: 2023:05:14 10:22:00\n").data⟩)
          [⟨("IMG_1.DNG").data, EKind.file, []⟩] false).moves) :=
  ((c2_move_iff_timestamp
      (fun _ => ⟨0, ("Date/Time Original: 2023:05:14 10:22:00\n").data⟩)
      false [⟨("IMG_1.DNG").data, EKind.file, []⟩]
      ⟨("IMG_1.DNG").data, EKind.file, []⟩
      (by unfold NodupNames; decide) (by decide) (by decide) (by decide)
      (by decide)).1).mp ⟨⟨2023, 5, 14, 10, 22, 0⟩, by decide⟩

/-- C4 (code bug): per-file mkdir/move failures are *not* contained.  In a
directory where a regular file already occupies the name `2023-05-14`, the
first candidate's `mkdir(exist_ok=True)` raises `FileExistsError`, the
exception escapes the loop, and the second candidate — which has a
perfectly readable timestamp — is never even queried, let alone moved. -/
theorem c4_collision_aborts_run :
    (organize_dng_files
        (fun _ => ⟨0, ("Date/Time Original: 2023:05:14 10:22:00\n").data⟩)
        [⟨("2023-05-14").data, EKind.file, []⟩,
         ⟨("A.DNG").data, EKind.file, []⟩,
         ⟨("B.DNG").data, EKind.file, []⟩] false).err
      = some ("FileExistsError").data
    ∧ (organize_dng_files
        (fun _ => ⟨0, ("Date/Time Original: 2023:05:14 10:22:00\n").data⟩)
        [⟨("2023-05-14").data, EKind.file, []⟩,
         ⟨("A.DNG").data, EKind.file, []⟩,
         ⟨("B.DNG").data, EKind.file, []⟩] false).queried = [("A.DNG").data]
    ∧ (organize_dng_files
        (fun _ => ⟨0, ("Date/Time Original: 2023:05:14 10:22:00\n").data⟩)
        [⟨("2023-05-14").data, EKind.file, []⟩,
         ⟨("A.DNG").data, EKind.file, []⟩,
         ⟨("B.DNG").data, EKind.file, []⟩] false).moves = []
    ∧ lookupE (organize_dng_files
        (fun _ => ⟨0, ("Date/Time Original: 2023:05:14 10:22:00\n").data⟩)
        [⟨("2023-05-14").data, EKind.file, []⟩,
         ⟨("A.DNG").data, EKind.file, []⟩,
         ⟨("B.DNG").data, EKind.file, []⟩] false).fs (("B.DNG").data)
      = some ⟨("B.DNG").data, EKind.file, []⟩
    ∧ metaOf (fun _ => ⟨0, ("Date/Time Original: 2023:05:14 10:22:00\n").data⟩)
        false (("B.DNG").data) = some ⟨2023, 5, 14, 10, 22, 0⟩ :=
  ⟨by decide, by decide, by decide, by decide, by decide⟩

/-- C5: running the organizer a second time over the directory produced by
an error-free run performs no move and no mkdir, reports no error, and
leaves the directory exactly as the first run left it. -/
theorem c5_second_run_noop (exif : Str → ProcResult) (dbg : Bool)
    (fs0 : List Entry) (hnd : NodupNames fs0)
    (herr : (organize_dng_files exif fs0 dbg).err = none) :
    (organize_dng_files exif (organize_dng_files exif fs0 dbg).fs dbg).moves = []
    ∧ (organize_dng_files exif (organize_dng_files exif fs0 dbg).fs dbg).mkdirs = []
    ∧ (organize_dng_files exif (organize_dng_files exif fs0 dbg).fs dbg).fs
        = (organize_dng_files exif fs0 dbg).fs
    ∧ (organize_dng_files exif (organize_dng_files exif fs0 dbg).fs dbg).err
        = none := by
  obtain ⟨h1, h2, h3, h4⟩ :=
    organize_noop exif dbg _ (organize_leftover exif dbg fs0 hnd herr)
  exact ⟨h3, h4, h1, h2⟩

theorem c5_second_run_noop_witness :
    (organize_dng_files
      (fun p => if p = ("IMG_1.DNG").data
        then ⟨0, ("Date/Time Original: 2023:05:14 10:22:00\n").data⟩
        else ⟨1, []⟩)
      (organize_dng_files
        (fun p => if p = ("IMG_1.DNG").data
          then ⟨0, ("Date/Time Original: 2023:05:14 10:22:00\n").data⟩
          else ⟨1, []⟩)
        [⟨("IMG_1.DNG").data, EKind.file, []⟩,
         ⟨("IMG_2.DNG").data, EKind.file, []⟩] false).fs false).moves = [] :=
  (c5_second_run_noop
    (fun p => if p = ("IMG_1.DNG").data
      then ⟨0, ("Date/Time Original: 2023:05:14 10:22:00\n").data⟩
      else ⟨1, []⟩)
    false
    [⟨("IMG_1.DNG").data, EKind.file, []⟩, ⟨("IMG_2.DNG").data, EKind.file, []⟩]
    (by unfold NodupNames; decide) (by decide)).1

/-- C6: two candidates whose capture timestamps share a date land in one
and the same date-named subdirectory (exactly one entry of that name
exists), and `mkdir(exist_ok=True)` on an existing directory of that name
returns without error and without change. -/
theorem c6_shared_directory (exif : Str → ProcResult) (dbg : Bool)
    (fs0 : List Entry) (a b : Entry) (dta dtb : DateTime)
    (hnd : NodupNames fs0) (ha : a ∈ fs0) (hb : b ∈ fs0)
    (hka : a.kind = EKind.file) (hkb : b.kind = EKind.file)
    (hga : globDNG a.name = true) (hgb : globDNG b.name = true)
    (hma : metaOf exif dbg a.name = some dta)
    (hmb : metaOf exif dbg b.name = some dtb)
    (hdate : dateFolder dta = dateFolder dtb)
    (herr : (organize_dng_files exif fs0 dbg).err = none) :
    (∃ d ∈ (organize_dng_files exif fs0 dbg).fs, d.name = dateFolder dta ∧
      d.kind = EKind.dir ∧ a.name ∈ d.files ∧ b.name ∈ d.files)
    ∧ ((organize_dng_files exif fs0 dbg).fs.filter
        (fun x => x.name == dateFolder dta)).length = 1
    ∧ (∀ fs d, lookupE fs (dateFolder dta) = some d → d.kind = EKind.dir →
        mkdirOp fs (dateFolder dta) = Except.ok fs) := by
  obtain ⟨_, ⟨da, hda, hdan, hdak, hdaf⟩, _⟩ :=
    organize_reaches exif dbg fs0 a dta hnd ha hka hga hma herr
  obtain ⟨_, ⟨db, hdb, hdbn, hdbk, hdbf⟩, _⟩ :=
    organize_reaches exif dbg fs0 b dtb hnd hb hkb hgb hmb herr
  have hrnd := organize_nodup exif dbg fs0 hnd
  have hdd : da = db :=
    uniqueEntry _ hrnd da db hda hdb (hdan.trans (hdate.trans hdbn.symm))
  refine ⟨⟨da, hda, hdan, hdak, hdaf, by rw [hdd]; exact hdbf⟩, ?_, ?_⟩
  · exact filter_name_unique _ _ hrnd da hda hdan
  · intro fs d hld hdk
    simp [mkdirOp, hld, hdk]

theorem c6_shared_directory_witness :
    ((organize_dng_files
      (fun _ => ⟨0, ("Date/Time Original: 2023:05:14 10:22:00\n").data⟩)
      [⟨("A.DNG").data, EKind.file, []⟩, ⟨("B.DNG").data, EKind.file, []⟩]
      false).fs.filter
        (fun x => x.name == dateFolder ⟨2023, 5, 14, 10, 22, 0⟩)).length = 1 :=
  (c6_shared_directory
    (fun _ => ⟨0, ("Date/Time Original: 2023:05:14 10:22:00\n").data⟩)
    false
    [⟨("A.DNG").data, EKind.file, []⟩, ⟨("B.DNG").data, EKind.file, []⟩]
    ⟨("A.DNG").data, EKind.file, []⟩ ⟨("B.DNG").data, EKind.file, []⟩
    ⟨2023, 5, 14, 10, 22, 0⟩ ⟨2023, 5, 14, 10, 22, 0⟩
    (by unfold NodupNames; decide) (by decide) (by decide) (by decide)
    (by decide) (by decide) (by decide) (by decide) (by decide) rfl
    (by decide)).2.1

/-- C7: when the metadata tool is missing or the source directory does not
exist, the program prints a message and exits with status 1, and the
organizer — hence any scan, mkdir or move — never runs. -/
theorem c7_startup_failure (env : Env) (exif : Str → ProcResult)
    (fs0 : List Entry) (dbg : Bool)
    (h : env.exiftoolPresent = false ∨ env.sourceDirExists = false) :
    (main_run env exif fs0 dbg).exitCode = 1
    ∧ (main_run env exif fs0 dbg).organized = none
    ∧ (main_run env exif fs0 dbg).messages ≠ [] := by
  cases hp : env.exiftoolPresent with
  | false =>
    refine ⟨?_, ?_, ?_⟩ <;> simp [main_run, check_exiftool, hp]
  | true =>
    have hd : env.sourceDirExists = false := by
      rcases h with h | h
      · rw [hp] at h; exact Bool.noConfusion h
      · exact h
    refine ⟨?_, ?_, ?_⟩ <;> simp [main_run, check_exiftool, hp, hd]

theorem c7_startup_failure_witness :
    (main_run ⟨true, false⟩ (fun _ => ⟨1, []⟩) [] false).exitCode = 1
    ∧ (main_run ⟨true, false⟩ (fun _ => ⟨1, []⟩) [] false).organized = none
    ∧ (main_run ⟨true, false⟩ (fun _ => ⟨1, []⟩) [] false).messages ≠ [] :=
  c7_startup_failure ⟨true, false⟩ (fun _ => ⟨1, []⟩) [] false (Or.inr rfl)

/-- C8: only immediate children of the source directory that match `*.DNG`
and are regular files are ever queried for metadata or moved; every other
entry keeps its name and kind, loses nothing it contains, and — unless it
is a directory receiving moved files — is untouched bit for bit. -/
theorem c8_frame_only_candidates (exif : Str → ProcResult) (dbg : Bool)
    (fs0 : List Entry) (hnd : NodupNames fs0) :
    (∀ q ∈ (organize_dng_files exif fs0 dbg).queried,
      ∃ e ∈ fs0, e.name = q ∧ e.kind = EKind.file ∧ globDNG q = true)
    ∧ (∀ p ∈ (organize_dng_files exif fs0 dbg).moves,
      ∃ e ∈ fs0, e.name = p.1 ∧ e.kind = EKind.file ∧ globDNG p.1 = true)
    ∧ (∀ x ∈ fs0, ¬(globDNG x.name = true ∧ x.kind = EKind.file) →
        (∀ q ∈ (organize_dng_files exif fs0 dbg).queried, q ≠ x.name) ∧
        (∀ p ∈ (organize_dng_files exif fs0 dbg).moves, p.1 ≠ x.name) ∧
        ∃ x' ∈ (organize_dng_files exif fs0 dbg).fs, x'.name = x.name ∧
          x'.kind = x.kind ∧ (∀ m ∈ x.files, m ∈ x'.files) ∧
          (x.kind ≠ EKind.dir → x' = x)) := by
  obtain ⟨hq, hp⟩ := organize_frame exif dbg fs0 hnd
  refine ⟨hq, hp, ?_⟩
  intro x hx hnc
  refine ⟨?_, ?_, organize_untouched exif dbg fs0 x hnd hx hnc⟩
  · intro q hqm hEq
    obtain ⟨e', he', hen, hek, hgq⟩ := hq q hqm
    apply hnc
    have hex : e' = x := uniqueEntry fs0 hnd e' x he' hx (by rw [hen, hEq])
    constructor
    · rw [← hEq]; exact hgq
    · rw [← hex]; exact hek
  · intro pr hpm hEq
    obtain ⟨e', he', hen, hek, hgq⟩ := hp pr hpm
    apply hnc
    have hex : e' = x := uniqueEntry fs0 hnd e' x he' hx (by rw [hen, hEq])
    constructor
    · rw [← hEq]; exact hgq
    · rw [← hex]; exact hek

theorem c8_frame_only_candidates_witness :
    ∃ x' ∈ (organize_dng_files
        (fun _ => ⟨0, ("Date/Time Original: 2023:05:14 10:22:00\n").data⟩)
        [⟨("IMG_1.DNG").data, EKind.file, []⟩,
         ⟨("notes.txt").data, EKind.file, []⟩,
         ⟨("SUB.DNG").data, EKind.dir, [("inner.DNG").data]⟩] false).fs,
      x'.name = ("notes.txt").data ∧ x'.kind = EKind.file ∧
      (∀ m ∈ ([] : List Str), m ∈ x'.files) ∧
      (EKind.file ≠ EKind.dir →
        x' = ⟨("notes.txt").data, EKind.file, []⟩) :=
  ((c8_frame_only_candidates
      (fun _ => ⟨0, ("Date/Time Original: 2023:05:14 10:22:00\n").data⟩)
      false
      [⟨("IMG_1.DNG").data, EKind.file, []⟩,
       ⟨("notes.txt").data, EKind.file, []⟩,
       ⟨("SUB.DNG").data, EKind.dir, [("inner.DNG").data]⟩]
      (by unfold NodupNames; decide)).2.2
    ⟨("notes.txt").data, EKind.file, []⟩ (by decide) (by decide)).2.2

/-- C9: the debug flag is observationally irrelevant to results: the value
`get_date_taken` returns and the directory contents, error outcome, moves,
mkdir calls and metadata queries of `organize_dng_files` are identical for
any two settings of the flag — only the printed trace may differ. -/
theorem c9_debug_has_no_effect (exif : Str → ProcResult) (fs0 : List Entry)
    (p : Str) (d1 d2 : Bool) :
    (get_date_taken exif d1 p).fst = (get_date_taken exif d2 p).fst
    ∧ (organize_dng_files exif fs0 d1).fs = (organize_dng_files exif fs0 d2).fs
    ∧ (organize_dng_files exif fs0 d1).err = (organize_dng_files exif fs0 d2).err
    ∧ (organize_dng_files exif fs0 d1).moves
        = (organize_dng_files exif fs0 d2).moves
    ∧ (organize_dng_files exif fs0 d1).mkdirs
        = (organize_dng_files exif fs0 d2).mkdirs
    ∧ (organize_dng_files exif fs0 d1).queried
        = (organize_dng_files exif fs0 d2).queried := by
  refine ⟨metaOf_debug exif d1 d2 p, ?_⟩
  unfold organize_dng_files
  exact foldl_debug exif d1 d2 (candidates fs0) _ _ rfl rfl rfl rfl rfl

theorem c10_label_ignored_witness :
    (get_date_taken
      (fun _ => ⟨0, ("Totally Wrong Label").data
        ++ ':' :: ' ' :: ("2023:05:14 10:22:00\n").data⟩)
      false ("IMG_1.DNG").data).fst = some ⟨2023, 5, 14, 10, 22, 0⟩ :=
  c10_label_ignored
    (fun _ => ⟨0, ("Totally Wrong Label").data
      ++ ':' :: ' ' :: ("2023:05:14 10:22:00\n").data⟩)
    false ("IMG_1.DNG").data
    ("Totally Wrong Label").data ("2023:05:14 10:22:00\n").data
    ⟨2023, 5, 14, 10, 22, 0⟩ (by decide) (by decide) (by decide) rfl

-- sanity: hidden (dot-initial) names are real candidates, as for
-- `Path.glob`: the run queries and moves them like any other match
example :
    (organize_dng_files
      (fun _ => ⟨0, ("Date/Time Original: 2023:05:14 10:22:00\n").data⟩)
      [⟨("._IMG_1.DNG").data, EKind.file, []⟩] false).moves
    = [(("._IMG_1.DNG").data, ("2023-05-14").data)] := by decide

-- sanity: a dot candidate whose date folder name is occupied by a regular
-- file aborts the run before later candidates are reached, and the model
-- reports it (`err` is set), so such runs never satisfy `err = none`
example :
    (organize_dng_files
      (fun p => if p = ("B.DNG").data
        then ⟨0, ("Date/Time Original: 2023:06:01 09:00:00\n").data⟩
        else ⟨0, ("Date/Time Original: 2023:05:14 10:22:00\n").data⟩)
      [⟨(".A.DNG").data, EKind.file, []⟩,
       ⟨("2023-05-14").data, EKind.file, []⟩,
       ⟨("B.DNG").data, EKind.file, []⟩] false).err
    = some ("FileExistsError").data := by decide

example :
    (organize_dng_files
      (fun p => if p = ("B.DNG").data
        then ⟨0, ("Date/Time Original: 2023:06:01 09:00:00\n").data⟩
        else ⟨0, ("Date/Time Original: 2023:05:14 10:22:00\n").data⟩)
      [⟨(".A.DNG").data, EKind.file, []⟩,
       ⟨("2023-05-14").data, EKind.file, []⟩,
       ⟨("B.DNG").data, EKind.file, []⟩] false).queried
    = [(".A.DNG").data] := by decide
